import Mathlib

/-!
# CasparCG playout: frame normalisation, presentation loop and flash producer

A shallow embedding of the parts of the sources that the specification's
testable properties talk about:

* `modules/ffmpeg/producer/util.h`: `get_pixel_format`, `get_pixel_format_desc`
  and the plane copy, field order fix and pool key of `make_write_frame`;
* `core/consumer/ogl/ogl_consumer.cpp`: `init`, `Uniform`, `UniformToFill`,
  `render` and `run` of `consumer::implementation`;
* `core/producer/flash/flash_producer.cpp`: `get_frame`, `param`, `start`,
  `stop`, the worker's `render` and exit cleanup, and `render_frame` of
  `flash_producer::implementation`.

Sizes (`size_t`, `int` line sizes of accepted pictures) are natural numbers:
libavcodec only lays out pictures with `(w+128)*(h+128) < INT_MAX/8`, so no
product below wraps. Float arithmetic of the consumer is embedded as exact
rational arithmetic.
-/

set_option autoImplicit false

namespace caspar

/-! ## libavutil / libavcodec collaborators -/

/-- The C enum `PixelFormat` of libavutil is an `int`; `make_write_frame`
casts the decoder's `format` field to it, so any integer can arrive. -/
abbrev PixelFormat := Int

/-! The enumerators of `PixelFormat` that `get_pixel_format` names, with their
values in libavutil's `pixfmt.h`. -/

def PIX_FMT_YUV420P : PixelFormat := 0
def PIX_FMT_YUV422P : PixelFormat := 4
def PIX_FMT_YUV444P : PixelFormat := 5
def PIX_FMT_YUV410P : PixelFormat := 6
def PIX_FMT_YUV411P : PixelFormat := 7
def PIX_FMT_GRAY8 : PixelFormat := 8
def PIX_FMT_ARGB : PixelFormat := 27
def PIX_FMT_RGBA : PixelFormat := 28
def PIX_FMT_ABGR : PixelFormat := 29
def PIX_FMT_BGRA : PixelFormat := 30
def PIX_FMT_YUVA420P : PixelFormat := 35

/-- The `AVPicture` of libavcodec: four plane pointers and four line sizes.
The pointers are kept as byte offsets from the buffer start, which is what
they are when the picture is filled over a null buffer. -/
structure AVPicture where
  data0 : Nat
  data1 : Nat
  data2 : Nat
  data3 : Nat
  linesize0 : Nat
  linesize1 : Nat
  linesize2 : Nat
  linesize3 : Nat
  deriving DecidableEq, Repr

/-- Horizontal and vertical chroma shift of the planar formats, as in
libavcodec's pixel format table. -/
def chroma_shift (pix_fmt : PixelFormat) : Nat × Nat :=
  if pix_fmt = PIX_FMT_YUV444P then (0, 0)
  else if pix_fmt = PIX_FMT_YUV422P then (1, 0)
  else if pix_fmt = PIX_FMT_YUV420P then (1, 1)
  else if pix_fmt = PIX_FMT_YUV411P then (2, 0)
  else if pix_fmt = PIX_FMT_YUV410P then (2, 2)
  else if pix_fmt = PIX_FMT_YUVA420P then (1, 1)
  else (0, 0)

/-- The picture layout libavcodec's `avpicture_fill` computes over a null
buffer, with the byte size it returns, for the eleven formats the normaliser
recognises (`ff_fill_linesize` followed by `ff_fill_pointer`). Other formats
are laid out by the library too; they are not needed here and get the empty
layout. -/
def avpicture_fill (pix_fmt : PixelFormat) (width height : Nat) : AVPicture × Nat :=
  if pix_fmt = PIX_FMT_GRAY8 then
    (⟨0, 0, 0, 0, width, 0, 0, 0⟩, width * height)
  else if pix_fmt = PIX_FMT_BGRA ∨ pix_fmt = PIX_FMT_ARGB ∨ pix_fmt = PIX_FMT_RGBA
      ∨ pix_fmt = PIX_FMT_ABGR then
    (⟨0, 0, 0, 0, width * 4, 0, 0, 0⟩, width * 4 * height)
  else if pix_fmt = PIX_FMT_YUV444P ∨ pix_fmt = PIX_FMT_YUV422P ∨ pix_fmt = PIX_FMT_YUV420P
      ∨ pix_fmt = PIX_FMT_YUV411P ∨ pix_fmt = PIX_FMT_YUV410P then
    let w2 := (width + 2 ^ (chroma_shift pix_fmt).1 - 1) / 2 ^ (chroma_shift pix_fmt).1
    let h2 := (height + 2 ^ (chroma_shift pix_fmt).2 - 1) / 2 ^ (chroma_shift pix_fmt).2
    let size := width * height
    let size2 := w2 * h2
    (⟨0, size, size + size2, 0, width, w2, w2, 0⟩, size + 2 * size2)
  else if pix_fmt = PIX_FMT_YUVA420P then
    let w2 := (width + 2 ^ (chroma_shift pix_fmt).1 - 1) / 2 ^ (chroma_shift pix_fmt).1
    let h2 := (height + 2 ^ (chroma_shift pix_fmt).2 - 1) / 2 ^ (chroma_shift pix_fmt).2
    let size := width * height
    let size2 := w2 * h2
    (⟨0, size, size + size2, size + size2 + size2, width, w2, w2, width⟩, 2 * size + 2 * size2)
  else
    (⟨0, 0, 0, 0, 0, 0, 0, 0⟩, 0)

/-! ## core::pixel_format -/

namespace core

/-- Modelled from the spec: the logical colour formats
`core::pixel_format::type` of `core/producer/frame/pixel_format.h`, which is
not among the sources: gray, the four packed 32-bit orders, planar YCbCr with
and without alpha, and `invalid`. These are the enumerators the sources
name. -/
inductive pixel_format
  | gray
  | bgra
  | argb
  | rgba
  | abgr
  | ycbcr
  | ycbcra
  | invalid
  deriving DecidableEq, Repr

/-- Modelled from the spec: the plane record `core::pixel_format_desc::plane`
of `core/producer/frame/pixel_format.h`, which is not among the sources. It is
built from (line stride in samples, height in lines, sample count per pixel
element). -/
structure plane where
  width : Nat
  height : Nat
  channels : Nat
  deriving DecidableEq, Repr

/-- Bytes in one line of the plane: stride in samples times sample count. -/
def plane.linesize (p : plane) : Nat := p.width * p.channels

/-- Byte size of the plane: line stride x height x sample count. -/
def plane.size (p : plane) : Nat := p.width * p.height * p.channels

/-- Modelled from the spec: the descriptor `core::pixel_format_desc` of the
same header: a colour format and its planes. -/
structure pixel_format_desc where
  pix_fmt : pixel_format
  planes : List plane
  deriving DecidableEq, Repr

/-- Sum of the per-plane byte sizes of a descriptor. -/
def pixel_format_desc.size (d : pixel_format_desc) : Nat :=
  (d.planes.map plane.size).sum

end core

/-! ## modules/ffmpeg/producer/util.h -/

/-- The function `get_pixel_format` (util.h, lines 27-44). -/
def get_pixel_format (pix_fmt : PixelFormat) : core.pixel_format :=
  if pix_fmt = PIX_FMT_GRAY8 then core.pixel_format.gray
  else if pix_fmt = PIX_FMT_BGRA then core.pixel_format.bgra
  else if pix_fmt = PIX_FMT_ARGB then core.pixel_format.argb
  else if pix_fmt = PIX_FMT_RGBA then core.pixel_format.rgba
  else if pix_fmt = PIX_FMT_ABGR then core.pixel_format.abgr
  else if pix_fmt = PIX_FMT_YUV444P then core.pixel_format.ycbcr
  else if pix_fmt = PIX_FMT_YUV422P then core.pixel_format.ycbcr
  else if pix_fmt = PIX_FMT_YUV420P then core.pixel_format.ycbcr
  else if pix_fmt = PIX_FMT_YUV411P then core.pixel_format.ycbcr
  else if pix_fmt = PIX_FMT_YUV410P then core.pixel_format.ycbcr
  else if pix_fmt = PIX_FMT_YUVA420P then core.pixel_format.ycbcra
  else core.pixel_format.invalid

/-- The eleven format tags `get_pixel_format` recognises. -/
def recognised (pix_fmt : PixelFormat) : Prop :=
  pix_fmt = PIX_FMT_GRAY8 ∨ pix_fmt = PIX_FMT_BGRA ∨ pix_fmt = PIX_FMT_ARGB
    ∨ pix_fmt = PIX_FMT_RGBA ∨ pix_fmt = PIX_FMT_ABGR ∨ pix_fmt = PIX_FMT_YUV444P
    ∨ pix_fmt = PIX_FMT_YUV422P ∨ pix_fmt = PIX_FMT_YUV420P ∨ pix_fmt = PIX_FMT_YUV411P
    ∨ pix_fmt = PIX_FMT_YUV410P ∨ pix_fmt = PIX_FMT_YUVA420P

/-- The five planar YUV tags without alpha. -/
def planar_yuv (pix_fmt : PixelFormat) : Prop :=
  pix_fmt = PIX_FMT_YUV444P ∨ pix_fmt = PIX_FMT_YUV422P ∨ pix_fmt = PIX_FMT_YUV420P
    ∨ pix_fmt = PIX_FMT_YUV411P ∨ pix_fmt = PIX_FMT_YUV410P

/-- The four packed 32-bit tags. -/
def packed_rgb (pix_fmt : PixelFormat) : Prop :=
  pix_fmt = PIX_FMT_BGRA ∨ pix_fmt = PIX_FMT_ARGB ∨ pix_fmt = PIX_FMT_RGBA
    ∨ pix_fmt = PIX_FMT_ABGR

instance (pix_fmt : PixelFormat) : Decidable (recognised pix_fmt) := by
  unfold recognised
  infer_instance

instance (pix_fmt : PixelFormat) : Decidable (planar_yuv pix_fmt) := by
  unfold planar_yuv
  infer_instance

instance (pix_fmt : PixelFormat) : Decidable (packed_rgb pix_fmt) := by
  unfold packed_rgb
  infer_instance

/-- The function `get_pixel_format_desc` (util.h, lines 46-89). The library
routine that fills `dummy_pict` is the parameter `fill`; its returned size is
ignored, as in the source. The result is `none` where the program returns
nothing: the chroma height is a C integer division by `linesize[1]`, which
traps when that line size is zero. The divisions by the constant 4 cannot
trap. In the layouts the library reports `data[2]` is not below `data[1]`, so
the pointer difference is the difference of the offsets. -/
def get_pixel_format_desc (fill : PixelFormat → Nat → Nat → AVPicture × Nat)
    (pix_fmt : PixelFormat) (width height : Nat) : Option core.pixel_format_desc :=
  let dummy_pict := (fill pix_fmt width height).1
  match get_pixel_format pix_fmt with
  | core.pixel_format.gray =>
    some ⟨core.pixel_format.gray, [⟨dummy_pict.linesize0 / 4, height, 1⟩]⟩
  | core.pixel_format.bgra =>
    some ⟨core.pixel_format.bgra, [⟨dummy_pict.linesize0 / 4, height, 4⟩]⟩
  | core.pixel_format.argb =>
    some ⟨core.pixel_format.argb, [⟨dummy_pict.linesize0 / 4, height, 4⟩]⟩
  | core.pixel_format.rgba =>
    some ⟨core.pixel_format.rgba, [⟨dummy_pict.linesize0 / 4, height, 4⟩]⟩
  | core.pixel_format.abgr =>
    some ⟨core.pixel_format.abgr, [⟨dummy_pict.linesize0 / 4, height, 4⟩]⟩
  | core.pixel_format.ycbcr =>
    let size2 := dummy_pict.data2 - dummy_pict.data1
    if dummy_pict.linesize1 = 0 then none
    else
      let h2 := size2 / dummy_pict.linesize1
      some ⟨core.pixel_format.ycbcr,
        [⟨dummy_pict.linesize0, height, 1⟩,
         ⟨dummy_pict.linesize1, h2, 1⟩,
         ⟨dummy_pict.linesize2, h2, 1⟩]⟩
  | core.pixel_format.ycbcra =>
    let size2 := dummy_pict.data2 - dummy_pict.data1
    if dummy_pict.linesize1 = 0 then none
    else
      let h2 := size2 / dummy_pict.linesize1
      some ⟨core.pixel_format.ycbcra,
        [⟨dummy_pict.linesize0, height, 1⟩,
         ⟨dummy_pict.linesize1, h2, 1⟩,
         ⟨dummy_pict.linesize2, h2, 1⟩,
         ⟨dummy_pict.linesize3, height, 1⟩]⟩
  | core.pixel_format.invalid =>
    some ⟨core.pixel_format.invalid, []⟩

/-- One byte of pixel data. -/
abbrev byte := Fin 256

/-- A region of memory addressed by byte offset from its start. -/
abbrev buffer := Nat → byte

/-- The C routine `memcpy(dst + d, src + s, n)` on two separate regions. -/
def memcpy (dst : buffer) (d : Nat) (src : buffer) (s n : Nat) : buffer :=
  fun i => if d ≤ i ∧ i < d + n then src (s + (i - d)) else dst i

/-- The row copies of one plane in `make_write_frame` (util.h, lines 145-149),
carried out for the rows `rows` in the order listed: row `y` copies
`plane.linesize` bytes from `decoded + y*decoded_linesize` to
`result + y*plane.linesize`. -/
def make_write_frame_copy_rows (plane : core.plane) (decoded : buffer) (decoded_linesize : Nat)
    (rows : List Nat) (result : buffer) : buffer :=
  rows.foldl
    (fun res y => memcpy res (y * plane.linesize) decoded (y * decoded_linesize) plane.linesize)
    result

/-- The plane copy of `make_write_frame` (util.h, lines 139-151) with the rows
`0 .. plane.height - 1` taken in ascending order. -/
def make_write_frame_copy_plane (plane : core.plane) (decoded : buffer) (decoded_linesize : Nat)
    (result : buffer) : buffer :=
  make_write_frame_copy_rows plane decoded decoded_linesize (List.range plane.height) result

namespace core

/-- Modelled from the spec: the output field order `core::video_mode::type` of
`core/video_format.h`, which is not among the sources. The sources name
`progressive`, `lower` and `upper`; `other` stands for any further enumerator,
which no switch in the sources handles. -/
inductive video_mode
  | progressive
  | lower
  | upper
  | other
  deriving DecidableEq, Repr

end core

/-- The fields of libavcodec's `AVFrame` that `make_write_frame` reads for the
field order fix. All are C `int`s; the two flags are tested against zero. -/
structure AVFrame where
  width : Int
  height : Int
  format : Int
  interlaced_frame : Int
  top_field_first : Int
  deriving DecidableEq, Repr

/-- The field order fix of `make_write_frame` (util.h, lines 155-169): the
arguments of the `set_fill_translation` call it makes, or `none` when it makes
no call. `0.5/static_cast<double>(height)` is the exact quotient. -/
def make_write_frame_fill_translation (decoded_frame : AVFrame) (mode : core.video_mode) :
    Option (ℚ × ℚ) :=
  if decoded_frame.interlaced_frame ≠ 0 then
    match mode with
    | core.video_mode.upper =>
      if decoded_frame.top_field_first = 0 then
        some (0, (1 / 2 : ℚ) / (decoded_frame.height : ℚ))
      else none
    | core.video_mode.lower =>
      if decoded_frame.top_field_first ≠ 0 then
        some (0, -(1 / 2 : ℚ) / (decoded_frame.height : ℚ))
      else none
    | _ => none
  else none

/-- The policy table of the specification for the field order fix: output
upper and not top-field-first gives `+0.5/h`, output lower and top-field-first
gives `-0.5/h`, every other combination gives no offset; only interlaced
sources are corrected. -/
def fill_translation_table (interlaced top_field_first : Bool) (mode : core.video_mode)
    (h : ℚ) : Option (ℚ × ℚ) :=
  if interlaced = true ∧ mode = core.video_mode.upper ∧ top_field_first = false then
    some (0, (1 / 2 : ℚ) / h)
  else if interlaced = true ∧ mode = core.video_mode.lower ∧ top_field_first = true then
    some (0, -(1 / 2 : ℚ) / h)
  else none

/-! ## core/consumer/ogl/ogl_consumer.cpp -/

/-- Modelled from the spec: a frame `gpu_frame` of `core/frame/gpu_frame.h`,
which is not among the sources: an owned buffer of pixel bytes; `size()` is
their number. -/
structure gpu_frame where
  data : List byte
  deriving DecidableEq, Repr

/-- Modelled from the spec: a shared pointer `gpu_frame_ptr` of the same
header. It is the null pointer (the end-of-stream marker pushed into a
channel), the empty sentinel frame `gpu_frame::null()` that carries no pixel
data, or a frame made by a frame factory. -/
inductive gpu_frame_ptr
  | nullptr
  | null
  | frame (f : gpu_frame)
  deriving DecidableEq, Repr

namespace ogl

/-- Modelled from the spec: the part of `frame_format_desc`
(`core/frame/frame_format.h`, not among the sources) the consumer reads: the
source width and height in pixels and the frame byte size. -/
structure frame_format_desc where
  width : Nat
  height : Nat
  size : Nat
  deriving DecidableEq, Repr

/-- The method `consumer::implementation::Uniform` (lines 141-148). -/
def Uniform (format_desc_ : frame_format_desc) (screen_width_ screen_height_ : Nat) : ℚ × ℚ :=
  let aspect : ℚ := (format_desc_.width : ℚ) / (format_desc_.height : ℚ)
  let width : ℚ := min 1 ((screen_height_ : ℚ) * aspect / (screen_width_ : ℚ))
  let height : ℚ := ((screen_width_ : ℚ) * width) / ((screen_height_ : ℚ) * aspect)
  (width, height)

/-- The method `consumer::implementation::UniformToFill` (lines 155-165). -/
def UniformToFill (format_desc_ : frame_format_desc) (screen_width_ screen_height_ : Nat) :
    ℚ × ℚ :=
  let wr : ℚ := (format_desc_.width : ℚ) / (screen_width_ : ℚ)
  let hr : ℚ := (format_desc_.height : ℚ) / (screen_height_ : ℚ)
  let r_inv : ℚ := 1 / min wr hr
  let width : ℚ := wr * r_inv
  let height : ℚ := hr * r_inv
  (width, height)

/-- The transfer buffers and presentation log of `consumer::implementation`.
A buffer's data store is `none` while its content is unspecified (freshly
allocated by `glBufferData` with a null data pointer) and `some d` once the
bytes `d` were copied to its start. `drawn` lists, per render call, the data
store that was bound when the texture was updated and drawn. -/
structure implementation where
  pbo_index_ : Nat
  pbo0 : Option (List byte)
  pbo1 : Option (List byte)
  drawn : List (Option (List byte))
  deriving DecidableEq, Repr

/-- The data store of `pbos_[i]`. -/
def implementation.pbo (s : implementation) (i : Nat) : Option (List byte) :=
  if i = 0 then s.pbo0 else s.pbo1

/-- Replace the data store of `pbos_[i]`. -/
def implementation.set_pbo (s : implementation) (i : Nat) (d : Option (List byte)) :
    implementation :=
  if i = 0 then { s with pbo0 := d } else { s with pbo1 := d }

/-- The state `init` leaves (lines 124-130): both buffers allocated with
unspecified content, `pbo_index_ = 0`, nothing drawn yet. -/
def init : implementation :=
  { pbo_index_ := 0, pbo0 := none, pbo1 := none, drawn := [] }

/-- The method `render` (lines 167-193) when no GL call reports an error.
`mapped` tells whether `glMapBuffer` returned a non-null pointer. -/
def render (frame : gpu_frame) (mapped : Bool) (s : implementation) : implementation :=
  let shown := s.pbo s.pbo_index_
  let nextPboIndex := s.pbo_index_ ^^^ 1
  let s1 := s.set_pbo nextPboIndex none
  let s2 := if mapped then s1.set_pbo nextPboIndex (some frame.data) else s1
  { s2 with pbo_index_ := nextPboIndex, drawn := s.drawn ++ [shown] }

/-- The index `nextPboIndex` that the next `render` call binds, maps and
fills: the buffer that is not the one it binds for the texture update. -/
def writable_index (s : implementation) : Nat := s.pbo_index_ ^^^ 1

/-- Run `render` once per listed (frame, mapping outcome), in order. -/
def render_cycles (cycles : List (gpu_frame × Bool)) (s : implementation) : implementation :=
  cycles.foldl (fun st c => render c.1 c.2 st) s

/-- What the environment does to one pass of the `try` block of `run`:
some call in it raises, or it completes with the given mapping outcome. -/
inductive cycle_outcome
  | raised
  | completed (mapped : Bool)
  deriving DecidableEq, Repr

/-- The presentation thread's bookkeeping: the GL side, whether `exception_`
holds an exception, the frames handed to `render` in call order, and how
often `frame_buffer_.pop` returned. -/
structure run_state where
  gl : implementation
  exception_ : Bool
  rendered : List gpu_frame
  pops : Nat
  deriving DecidableEq, Repr

/-- How `run` ends on a finite supply of channel items: it left its loop with
the items it never popped, or it waits in `pop` on the drained channel. -/
inductive run_result
  | exited (s : run_state) (frame_buffer_ : List gpu_frame_ptr)
  | blocked (s : run_state)
  deriving DecidableEq, Repr

/-- The frame a pointer refers to, if any: nothing for the null pointer, the
frame without pixel data for `gpu_frame::null()`. -/
def deref : gpu_frame_ptr → Option gpu_frame
  | gpu_frame_ptr.nullptr => none
  | gpu_frame_ptr.null => some ⟨[]⟩
  | gpu_frame_ptr.frame f => some f

/-- The do-while loop of `run` (lines 211-230) over the items the channel
delivers, oldest first. `env k` is the outcome of the pass that follows the
pop number `k`. A pass that raises records the exception and goes on; its
effect on the GL side is not tracked. -/
def run_loop (env : Nat → cycle_outcome) : List gpu_frame_ptr → run_state → run_result
  | [], s => run_result.blocked s
  | frame :: rest, s =>
    match deref frame with
    | none => run_result.exited { s with pops := s.pops + 1 } rest
    | some f =>
      match env s.pops with
      | cycle_outcome.raised =>
        run_loop env rest { s with exception_ := true, pops := s.pops + 1 }
      | cycle_outcome.completed mapped =>
        run_loop env rest
          { s with gl := render f mapped s.gl, rendered := s.rendered ++ [f],
                   pops := s.pops + 1 }

/-- The method `run` (lines 206-231): `init`, then the loop. -/
def run (env : Nat → cycle_outcome) (frame_buffer_ : List gpu_frame_ptr) : run_result :=
  run_loop env frame_buffer_ { gl := init, exception_ := false, rendered := [], pops := 0 }

end ogl

/-! ## core/producer/flash/flash_producer.cpp -/

namespace flash

/-- The members of `flash_producer::implementation` that the frame hand-off
uses: the bounded channel (oldest first), the frame last popped from it, the
atomic is-empty flag, and whether `executor_.is_running()`. -/
structure implementation where
  frame_buffer_ : List gpu_frame_ptr
  last_frame_ : gpu_frame_ptr
  is_empty_ : Bool
  running : Bool
  deriving DecidableEq, Repr

/-- The errors the producer raises. -/
inductive error
  | operation_failed
  | caspar_exception
  deriving DecidableEq, Repr

/-- The method `get_frame` (lines 276-282): the returned pointer and the
state it leaves. `try_pop` never waits. -/
def get_frame (s : implementation) : gpu_frame_ptr × implementation :=
  match s.frame_buffer_ with
  | f :: rest => (f, { s with frame_buffer_ := rest, last_frame_ := f })
  | [] => if s.is_empty_ then (gpu_frame_ptr.null, s) else (s.last_frame_, s)

/-- The retry loop of `param` (lines 154-159), entered with the counter at
`retries`. `CallFunction k` is the outcome of the invocation that `k`
invocations precede. Returns the number of invocations made in all and
whether `operation_failed` was thrown. -/
def param_loop (CallFunction : Nat → Bool) (retries : Nat) : Nat × Bool :=
  if CallFunction retries then (retries + 1, false)
  else if retries > 3 then (retries + 1, true)
  else param_loop CallFunction (retries + 1)
termination_by 4 - retries
decreasing_by omega

/-- What a call of `param` or `start` leaves: the state, the error raised if
any, and how often `CallFunction` was invoked. -/
structure outcome where
  state : implementation
  raised : Option error
  calls : Nat
  deriving DecidableEq, Repr

/-- The block `param` hands to the executor (lines 152-161). -/
def param_invoke (CallFunction : Nat → Bool) (s : implementation) : outcome :=
  let r := param_loop CallFunction 0
  if r.2 then ⟨s, some error.operation_failed, r.1⟩
  else ⟨{ s with is_empty_ := false }, none, r.1⟩

/-- The last scope-exit block of the worker's `run` (lines 184-192) once its
loop has ended: `stop()` finds the executor stopped and only sets the flag,
the channel is cleared, and the end-of-stream null pointer is pushed. -/
def run_exit (s : implementation) : implementation :=
  { s with is_empty_ := true, frame_buffer_ := [gpu_frame_ptr.nullptr] }

/-- Modelled from the spec: `executor_.stop()` of
`common/concurrency/executor.h`, which is not among the sources. Stopping is
cooperative and the caller joins the worker, so the worker's exit cleanup has
run when the call returns. -/
def executor_stop (s : implementation) : implementation :=
  if s.running then run_exit { s with running := false } else s

/-- The method `stop` (lines 127-135). -/
def stop (s : implementation) : implementation :=
  let s1 := { s with is_empty_ := true }
  if s1.running then executor_stop { s1 with frame_buffer_ := [] } else s1

/-- The method `start` (lines 77-125). `created` tells whether the block that
creates and configures the Flash container ran without raising. -/
def start (force created : Bool) (s : implementation) : outcome :=
  if s.running && !force then ⟨s, none, 0⟩
  else
    let s1 := executor_stop { s with is_empty_ := true }
    let s2 := { s1 with running := true }
    if created then ⟨s2, none, 0⟩
    else ⟨stop s2, some error.caspar_exception, 0⟩

/-- The method `param` (lines 137-162). -/
def param (created : Bool) (CallFunction : Nat → Bool) (s : implementation) : outcome :=
  let r := if !s.running then start true created s else ⟨s, none, 0⟩
  match r.raised with
  | some e => ⟨r.state, some e, 0⟩
  | none => param_invoke CallFunction r.state

/-- One pass of the worker's `render` (lines 216-245) that finds the container
ready to render and room in the channel: the rendered frame `result` is
pushed and the flag becomes `IsEmpty()`. The worker makes such a pass only
while the executor runs and the flag is false (line 196); the channel holds
at most `capacity` frames (`DEFAULT_BUFFER_SIZE`). -/
def render (capacity : Nat) (result : gpu_frame) (IsEmpty : Bool) (s : implementation) :
    implementation :=
  if s.running && !s.is_empty_ && decide (s.frame_buffer_.length < capacity) then
    { s with frame_buffer_ := s.frame_buffer_ ++ [gpu_frame_ptr.frame result],
             is_empty_ := IsEmpty }
  else s

/-- The producer as its constructor leaves it (lines 62-70): nothing buffered,
no frame popped yet, the executor not started. The constructor does not
initialise the is-empty flag, so its value is a parameter. -/
def constructed (is_empty_ : Bool) : implementation :=
  { frame_buffer_ := [], last_frame_ := gpu_frame_ptr.nullptr, is_empty_ := is_empty_,
    running := false }

/-- The calls a client makes on the producer, and the worker's render pass. -/
inductive action
  | get_frame
  | param (created : Bool) (CallFunction : Nat → Bool)
  | start (force created : Bool)
  | stop
  | render (result : gpu_frame) (IsEmpty : Bool)

/-- One action on the producer; the second component collects what the
`get_frame` calls returned so far, oldest first. -/
def step (capacity : Nat) (st : implementation × List gpu_frame_ptr) (a : action) :
    implementation × List gpu_frame_ptr :=
  match a with
  | action.get_frame => ((get_frame st.1).2, st.2 ++ [(get_frame st.1).1])
  | action.param created CallFunction => ((param created CallFunction st.1).state, st.2)
  | action.start force created => ((start force created st.1).state, st.2)
  | action.stop => (stop st.1, st.2)
  | action.render result IsEmpty => (render capacity result IsEmpty st.1, st.2)

/-- The state and the `get_frame` returns after a sequence of actions on a
freshly constructed producer. -/
def run_trace (capacity : Nat) (is_empty_ : Bool) (trace : List action) :
    implementation × List gpu_frame_ptr :=
  trace.foldl (step capacity) (constructed is_empty_, [])

/-- The most recent pointer in a list of returns that is not the empty
sentinel `gpu_frame::null()`; the null pointer when there is none. -/
def last_retrieved (returns : List gpu_frame_ptr) : gpu_frame_ptr :=
  ((returns.filter (fun q => q != gpu_frame_ptr.null)).getLast?).getD gpu_frame_ptr.nullptr

/-- Neither the frame last popped nor any buffered pointer is the empty
sentinel `gpu_frame::null()`. -/
def sentinel_free (s : implementation) : Prop :=
  s.last_frame_ ≠ gpu_frame_ptr.null ∧ ∀ p ∈ s.frame_buffer_, p ≠ gpu_frame_ptr.null

instance (s : implementation) : Decidable (sentinel_free s) := by
  unfold sentinel_free
  infer_instance

end flash

/-! ## modules/ffmpeg/producer/util.h: the conversion context pool key -/

/-- The value a 32-bit C `int` holds after an operation whose exact result is
`x` (two's complement wrap, as the target compiler does). -/
def to_int32 (x : Int) : Int := (x + 2147483648) % 4294967296 - 2147483648

/-- The pool key of `make_write_frame` (util.h, line 109),
`width << 20 | height << 8 | pix_fmt`: the shifts bind tighter than the ors,
all three operands are `int`s, and the `int` result is converted to the
32-bit `size_t` of the target. -/
def make_write_frame_key (width height pix_fmt : Int) : Nat :=
  (Int.lor (Int.lor (to_int32 (width * 2 ^ 20)) (to_int32 (height * 2 ^ 8))) pix_fmt
    % 4294967296).toNat

/-! ## core/producer/flash/flash_producer.cpp: render_frame -/

namespace flash

/-- Modelled from the spec: a `bitmap` of `core/producer/flash/bitmap.h`, which
is not among the sources: a raw bitmap buffer. `id` tells the allocations
apart (the number of bitmaps made before it), `data` are its pixel bytes. -/
structure bitmap where
  id : Nat
  data : List byte
  deriving DecidableEq, Repr

/-- The members of `flash_producer::implementation` that `render_frame` uses:
the counter of ticks without an invalid rectangle, the bitmap rendered last
(`none` for the null pointer), the bitmap pool (oldest first; the queue is
never given a capacity, so `try_push` always succeeds), and two records of
what was done so far: how many bitmaps were allocated and the ids of the
bitmaps `DrawControl` was called on, in call order. -/
structure render_state where
  invalid_count_ : Int
  current_frame_ : Option bitmap
  bitmap_pool_ : List bitmap
  allocated : Nat
  draws : List Nat
  deriving DecidableEq, Repr

/-- The renderer as the constructor leaves it (lines 62-70):
`invalid_count_(0)`, no current bitmap, an empty pool. -/
def render_state.constructed : render_state :=
  { invalid_count_ := 0, current_frame_ := none, bitmap_pool_ := [], allocated := 0, draws := [] }

/-- The routine `common::clear` on a bitmap: every byte becomes zero. -/
def clear (b : bitmap) : bitmap := { b with data := List.replicate b.data.length 0 }

/-- What releasing the last reference to a current bitmap does (the deleter set
at lines 263-267): the bitmap goes back to the pool and is cleared. -/
def release (pool : List bitmap) : Option bitmap → List bitmap
  | none => pool
  | some old => pool ++ [clear old]

/-- The drawing branch of `render_frame` (lines 253-267): a bitmap is popped
from the pool, or allocated and cleared on a miss; `DrawControl` paints
`picture` into it; it becomes the current bitmap and the previous one is
released. -/
def render_frame_draw (picture : List byte) (s : render_state) : render_state :=
  match s.bitmap_pool_ with
  | frame :: rest =>
    { s with current_frame_ := some { frame with data := picture },
             bitmap_pool_ := release rest s.current_frame_,
             draws := s.draws ++ [frame.id] }
  | [] =>
    { s with current_frame_ := some { id := s.allocated, data := picture },
             bitmap_pool_ := release [] s.current_frame_,
             allocated := s.allocated + 1,
             draws := s.draws ++ [s.allocated] }

/-- The method `render_frame` (lines 247-274). `InvalidRectangle` is what the
container reports after the tick, `picture` what `DrawControl` would paint.
Returns the frame made by the factory, filled from the current bitmap, and
the state left. -/
def render_frame (InvalidRectangle : Bool) (picture : List byte) (s : render_state) :
    gpu_frame × render_state :=
  let s1 : render_state :=
    { s with invalid_count_ := if !InvalidRectangle then min 2 (s.invalid_count_ + 1) else 0 }
  let s2 : render_state :=
    if s1.current_frame_ = none ∨ s1.invalid_count_ < 2 then render_frame_draw picture s1
    else s1
  match s2.current_frame_ with
  | some current => (⟨current.data⟩, s2)
  | none => (⟨[]⟩, s2)

/-- The assignment `current_frame_ = nullptr` of `start` (line 116) and of the
worker's exit cleanup (line 191): the current bitmap is released. -/
def reset_current (s : render_state) : render_state :=
  { s with current_frame_ := none, bitmap_pool_ := release s.bitmap_pool_ s.current_frame_ }

/-- What happens to the renderer: a `render_frame` call, or a reset of the
current bitmap by a restart. -/
inductive render_event
  | render_frame (InvalidRectangle : Bool) (picture : List byte)
  | reset
  deriving DecidableEq, Repr

/-- One event on the renderer. -/
def render_step (s : render_state) : render_event → render_state
  | render_event.render_frame InvalidRectangle picture =>
    (render_frame InvalidRectangle picture s).2
  | render_event.reset => reset_current s

/-- The renderer after a sequence of events on a freshly constructed one. -/
def render_trace (events : List render_event) : render_state :=
  events.foldl render_step render_state.constructed

/-- What the container reported on the most recent `render_frame` call of a
sequence of events, if there was one. -/
def last_report : List render_event → Option Bool
  | [] => none
  | render_event.render_frame InvalidRectangle _ :: rest =>
    match last_report rest with
    | some r => some r
    | none => some InvalidRectangle
  | render_event.reset :: rest => last_report rest

/-- The state and the `get_frame` returns after a sequence of actions on a
producer in state `s`. -/
def run_from (capacity : Nat) (s : implementation) (trace : List action) :
    implementation × List gpu_frame_ptr :=
  trace.foldl (step capacity) (s, [])

/-- The frames the worker's render passes of a sequence of actions hand over. -/
def rendered_frames : List action → List gpu_frame
  | [] => []
  | action.render result _ :: rest => result :: rendered_frames rest
  | _ :: rest => rendered_frames rest

/-- The pointer is the null pointer, the empty sentinel, or points to one of
the frames `passes`. -/
def from_passes (passes : List gpu_frame) (p : gpu_frame_ptr) : Prop :=
  p = gpu_frame_ptr.nullptr ∨ p = gpu_frame_ptr.null ∨ ∃ f ∈ passes, p = gpu_frame_ptr.frame f

/-- Nothing but the end-of-stream marker and frames of `passes` can still come
out of the producer: every buffered pointer is of that kind, and so is
`last_frame_` once the channel is empty. -/
def flushed (passes : List gpu_frame) (s : implementation) : Prop :=
  (∀ p ∈ s.frame_buffer_, from_passes passes p)
    ∧ (s.frame_buffer_ = [] → from_passes passes s.last_frame_)

instance (passes : List gpu_frame) (p : gpu_frame_ptr) : Decidable (from_passes passes p) := by
  unfold from_passes
  infer_instance

instance (passes : List gpu_frame) (s : implementation) : Decidable (flushed passes s) := by
  unfold flushed
  infer_instance

end flash

/-! ## Pixel format descriptors -/

/-- C1, at the failing input: for GRAY8 at 1920x1080 the descriptor's planes
add up to 518400 bytes while the picture `avpicture_fill` lays out has
2073600 bytes; the single plane is built from `linesize[0]/4` with one sample
per element. -/
theorem get_pixel_format_desc_gray8_undersized :
    (get_pixel_format_desc avpicture_fill PIX_FMT_GRAY8 1920 1080).map
        core.pixel_format_desc.size = some 518400 ∧
    (avpicture_fill PIX_FMT_GRAY8 1920 1080).2 = 2073600 ∧
    (get_pixel_format_desc avpicture_fill PIX_FMT_GRAY8 1920 1080).map
        core.pixel_format_desc.planes = some [⟨480, 1080, 1⟩] := by
  decide

/-- The chroma height the descriptor derives from the plane starts is the
one the library used, as long as the chroma line size is not zero. -/
theorem chroma_size_recovered (size w2 h2 : Nat) (hw2 : 0 < w2) :
    (size + w2 * h2 - size) / w2 = h2 := by
  rw [Nat.add_sub_cancel_left, Nat.mul_div_cancel_left _ hw2]

/-- A positive width has a positive chroma width at every chroma shift. -/
theorem ceil_shift_pos (width k : Nat) (hw : 0 < width) :
    0 < (width + 2 ^ k - 1) / 2 ^ k := by
  have hk : 0 < 2 ^ k := Nat.two_pow_pos k
  apply Nat.div_pos _ hk
  omega

/-- For a planar tag and a positive width the chroma line size that
`avpicture_fill` reports is not zero. -/
theorem avpicture_fill_linesize1_ne_zero (pix_fmt : PixelFormat) (width height : Nat)
    (hw : 0 < width) (hplanar : planar_yuv pix_fmt ∨ pix_fmt = PIX_FMT_YUVA420P) :
    (avpicture_fill pix_fmt width height).1.linesize1 ≠ 0 := by
  have h0 := ceil_shift_pos width 0 hw
  have h1 := ceil_shift_pos width 1 hw
  have h2 := ceil_shift_pos width 2 hw
  rcases hplanar with (h | h | h | h | h) | h
  all_goals subst h
  all_goals simp only [avpicture_fill, chroma_shift, PIX_FMT_GRAY8, PIX_FMT_BGRA, PIX_FMT_ARGB,
    PIX_FMT_RGBA, PIX_FMT_ABGR, PIX_FMT_YUV444P, PIX_FMT_YUV422P, PIX_FMT_YUV420P,
    PIX_FMT_YUV411P, PIX_FMT_YUV410P, PIX_FMT_YUVA420P]
  all_goals simp +decide only [if_true, if_false, or_true, true_or, or_false, false_or]
  all_goals omega

/-- When `get_pixel_format_desc` returns nothing: exactly for a planar tag
whose picture has chroma line size 0. -/
theorem get_pixel_format_desc_eq_none_iff (fill : PixelFormat → Nat → Nat → AVPicture × Nat)
    (pix_fmt : PixelFormat) (width height : Nat) :
    get_pixel_format_desc fill pix_fmt width height = none
      ↔ ((get_pixel_format pix_fmt = core.pixel_format.ycbcr
            ∨ get_pixel_format pix_fmt = core.pixel_format.ycbcra)
          ∧ (fill pix_fmt width height).1.linesize1 = 0) := by
  unfold get_pixel_format_desc
  cases hfmt : get_pixel_format pix_fmt <;>
    by_cases hl : (fill pix_fmt width height).1.linesize1 = 0 <;> simp [hl]

/-- The value of `get_pixel_format` by kind of tag. -/
theorem get_pixel_format_cases (pix_fmt : PixelFormat) :
    (pix_fmt = PIX_FMT_GRAY8 ∧ get_pixel_format pix_fmt = core.pixel_format.gray) ∨
    (packed_rgb pix_fmt ∧ get_pixel_format pix_fmt ≠ core.pixel_format.ycbcr
      ∧ get_pixel_format pix_fmt ≠ core.pixel_format.ycbcra) ∨
    (planar_yuv pix_fmt ∧ get_pixel_format pix_fmt = core.pixel_format.ycbcr) ∨
    (pix_fmt = PIX_FMT_YUVA420P ∧ get_pixel_format pix_fmt = core.pixel_format.ycbcra) ∨
    (¬ recognised pix_fmt ∧ get_pixel_format pix_fmt = core.pixel_format.invalid) := by
  by_cases h1 : pix_fmt = PIX_FMT_GRAY8
  · subst h1; exact Or.inl ⟨rfl, rfl⟩
  by_cases h2 : pix_fmt = PIX_FMT_BGRA
  · subst h2; exact Or.inr (Or.inl ⟨Or.inl rfl, by decide, by decide⟩)
  by_cases h3 : pix_fmt = PIX_FMT_ARGB
  · subst h3; exact Or.inr (Or.inl ⟨Or.inr (Or.inl rfl), by decide, by decide⟩)
  by_cases h4 : pix_fmt = PIX_FMT_RGBA
  · subst h4; exact Or.inr (Or.inl ⟨Or.inr (Or.inr (Or.inl rfl)), by decide, by decide⟩)
  by_cases h5 : pix_fmt = PIX_FMT_ABGR
  · subst h5; exact Or.inr (Or.inl ⟨Or.inr (Or.inr (Or.inr rfl)), by decide, by decide⟩)
  by_cases h6 : pix_fmt = PIX_FMT_YUV444P
  · subst h6; exact Or.inr (Or.inr (Or.inl ⟨Or.inl rfl, rfl⟩))
  by_cases h7 : pix_fmt = PIX_FMT_YUV422P
  · subst h7; exact Or.inr (Or.inr (Or.inl ⟨Or.inr (Or.inl rfl), rfl⟩))
  by_cases h8 : pix_fmt = PIX_FMT_YUV420P
  · subst h8; exact Or.inr (Or.inr (Or.inl ⟨Or.inr (Or.inr (Or.inl rfl)), rfl⟩))
  by_cases h9 : pix_fmt = PIX_FMT_YUV411P
  · subst h9; exact Or.inr (Or.inr (Or.inl ⟨Or.inr (Or.inr (Or.inr (Or.inl rfl))), rfl⟩))
  by_cases h10 : pix_fmt = PIX_FMT_YUV410P
  · subst h10; exact Or.inr (Or.inr (Or.inl ⟨Or.inr (Or.inr (Or.inr (Or.inr rfl))), rfl⟩))
  by_cases h11 : pix_fmt = PIX_FMT_YUVA420P
  · subst h11; exact Or.inr (Or.inr (Or.inr (Or.inl ⟨rfl, rfl⟩)))
  refine Or.inr (Or.inr (Or.inr (Or.inr ⟨?_, ?_⟩)))
  · simp only [recognised, not_or]
    exact ⟨h1, h2, h3, h4, h5, h6, h7, h8, h9, h10, h11⟩
  · simp [get_pixel_format, h1, h2, h3, h4, h5, h6, h7, h8, h9, h10, h11]

/-- Which tags `get_pixel_format` maps to the two planar formats. -/
theorem get_pixel_format_planar_iff (pix_fmt : PixelFormat) :
    (get_pixel_format pix_fmt = core.pixel_format.ycbcr ↔ planar_yuv pix_fmt) ∧
    (get_pixel_format pix_fmt = core.pixel_format.ycbcra ↔ pix_fmt = PIX_FMT_YUVA420P) := by
  constructor
  · constructor
    · intro h
      rcases get_pixel_format_cases pix_fmt with
        ⟨_, hv⟩ | ⟨_, hv, _⟩ | ⟨hp, _⟩ | ⟨_, hv⟩ | ⟨_, hv⟩
      · rw [hv] at h; cases h
      · exact absurd h hv
      · exact hp
      · rw [hv] at h; cases h
      · rw [hv] at h; cases h
    · rintro (rfl | rfl | rfl | rfl | rfl) <;> rfl
  · constructor
    · intro h
      rcases get_pixel_format_cases pix_fmt with
        ⟨_, hv⟩ | ⟨_, _, hv⟩ | ⟨_, hv⟩ | ⟨hp, _⟩ | ⟨_, hv⟩
      · rw [hv] at h; cases h
      · exact absurd h hv
      · rw [hv] at h; cases h
      · exact hp
      · rw [hv] at h; cases h
    · rintro rfl
      rfl

/-- X1: for every recognised tag other than GRAY8 and every positive width,
a descriptor is returned and its plane sizes add up to the byte size
`avpicture_fill` reports. -/
theorem get_pixel_format_desc_size_matches (pix_fmt : PixelFormat) (width height : Nat)
    (hw : 0 < width) (hrec : recognised pix_fmt) (hgray : pix_fmt ≠ PIX_FMT_GRAY8) :
    (get_pixel_format_desc avpicture_fill pix_fmt width height).map core.pixel_format_desc.size
      = some (avpicture_fill pix_fmt width height).2 := by
  have h0 := ceil_shift_pos width 0 hw
  have h1 := ceil_shift_pos width 1 hw
  have h2 := ceil_shift_pos width 2 hw
  have n0 : (width + 2 ^ 0 - 1) / 2 ^ 0 ≠ 0 := Nat.pos_iff_ne_zero.1 h0
  have n1 : (width + 2 ^ 1 - 1) / 2 ^ 1 ≠ 0 := Nat.pos_iff_ne_zero.1 h1
  have n2 : (width + 2 ^ 2 - 1) / 2 ^ 2 ≠ 0 := Nat.pos_iff_ne_zero.1 h2
  rcases hrec with h | h | h | h | h | h | h | h | h | h | h
  · exact absurd h hgray
  all_goals subst h
  all_goals simp only [get_pixel_format_desc, avpicture_fill, get_pixel_format, chroma_shift,
    core.pixel_format_desc.size, core.plane.size, PIX_FMT_GRAY8, PIX_FMT_BGRA, PIX_FMT_ARGB,
    PIX_FMT_RGBA, PIX_FMT_ABGR, PIX_FMT_YUV444P, PIX_FMT_YUV422P, PIX_FMT_YUV420P,
    PIX_FMT_YUV411P, PIX_FMT_YUV410P, PIX_FMT_YUVA420P]
  all_goals simp +decide only [if_true, if_false, or_true, true_or, or_false, false_or]
  all_goals simp only [if_neg n0, if_neg n1, if_neg n2, Option.map_some', Option.some.injEq,
    core.pixel_format_desc.size, List.map_cons, List.map_nil, List.sum_cons, List.sum_nil,
    core.plane.size, chroma_size_recovered _ _ _ h0, chroma_size_recovered _ _ _ h1,
    chroma_size_recovered _ _ _ h2, Nat.mul_div_cancel _ (by decide : 0 < 4), Nat.mul_one,
    Nat.add_zero]
  all_goals ring

/-- X1 at a concrete input: YUVA420P at 1921x1081. -/
theorem get_pixel_format_desc_size_matches_witness :
    (get_pixel_format_desc avpicture_fill PIX_FMT_YUVA420P 1921 1081).map
        core.pixel_format_desc.size
      = some (avpicture_fill PIX_FMT_YUVA420P 1921 1081).2 ∧
    (avpicture_fill PIX_FMT_YUVA420P 1921 1081).2 = 5193004 :=
  ⟨get_pixel_format_desc_size_matches PIX_FMT_YUVA420P 1921 1081 (by decide) (by decide)
     (by decide), by decide⟩

/-- X2: for GRAY8 a descriptor is returned whose plane sizes add up to
`(width/4)*height`, which is less than the `width*height` bytes of the picture
whenever both are positive. -/
theorem get_pixel_format_desc_gray8_size (width height : Nat) (hw : 0 < width)
    (hh : 0 < height) :
    (get_pixel_format_desc avpicture_fill PIX_FMT_GRAY8 width height).map
        core.pixel_format_desc.size = some (width / 4 * height) ∧
    (avpicture_fill PIX_FMT_GRAY8 width height).2 = width * height ∧
    width / 4 * height < (avpicture_fill PIX_FMT_GRAY8 width height).2 := by
  have hsize : (get_pixel_format_desc avpicture_fill PIX_FMT_GRAY8 width height).map
      core.pixel_format_desc.size = some (width / 4 * height) := by
    simp [get_pixel_format_desc, avpicture_fill, get_pixel_format,
      core.pixel_format_desc.size, core.plane.size]
  have hpic : (avpicture_fill PIX_FMT_GRAY8 width height).2 = width * height := by
    simp [avpicture_fill]
  refine ⟨hsize, hpic, ?_⟩
  rw [hpic]
  exact Nat.mul_lt_mul_of_pos_right (Nat.div_lt_self hw (by decide)) hh

/-- X2 at a concrete input: GRAY8 at 4x1. -/
theorem get_pixel_format_desc_gray8_size_witness :
    (get_pixel_format_desc avpicture_fill PIX_FMT_GRAY8 4 1).map
        core.pixel_format_desc.size = some 1 ∧
    (avpicture_fill PIX_FMT_GRAY8 4 1).2 = 4 :=
  ⟨(get_pixel_format_desc_gray8_size 4 1 (by decide) (by decide)).1,
   (get_pixel_format_desc_gray8_size 4 1 (by decide) (by decide)).2.1⟩

/-! ## Plane copy -/

/-- A byte offset lies in destination row `y` exactly when its quotient by the
line size is `y`; its position in the row is then the remainder. -/
theorem row_of_offset (L y i : Nat) :
    (y * L ≤ i ∧ i < y * L + L) ↔ (0 < L ∧ i / L = y) := by
  constructor
  · rintro ⟨h1, h2⟩
    have hL : 0 < L := by
      rcases Nat.eq_zero_or_pos L with h | h
      · subst h; omega
      · exact h
    refine ⟨hL, Nat.div_eq_of_lt_le h1 ?_⟩
    rw [Nat.add_mul, Nat.one_mul]
    exact h2
  · rintro ⟨hL, rfl⟩
    refine ⟨Nat.div_mul_le_self i L, ?_⟩
    have h := Nat.div_add_mod i L
    have h2 := Nat.mod_lt i hL
    have h3 : L * (i / L) = i / L * L := Nat.mul_comm _ _
    omega

/-- Pointwise description of the row copies: a destination byte whose row is
among `rows` holds the source byte of the same row and column, every other
byte is untouched. -/
theorem make_write_frame_copy_rows_apply (plane : core.plane) (decoded : buffer) (S : Nat)
    (rows : List Nat) (result : buffer) (i : Nat) :
    make_write_frame_copy_rows plane decoded S rows result i =
      if 0 < plane.linesize ∧ i / plane.linesize ∈ rows then
        decoded (i / plane.linesize * S + i % plane.linesize)
      else result i := by
  induction rows generalizing result with
  | nil => simp [make_write_frame_copy_rows]
  | cons y ys ih =>
    have hstep : make_write_frame_copy_rows plane decoded S (y :: ys) result =
        make_write_frame_copy_rows plane decoded S ys
          (memcpy result (y * plane.linesize) decoded (y * S) plane.linesize) := rfl
    rw [hstep, ih]
    by_cases hys : 0 < plane.linesize ∧ i / plane.linesize ∈ ys
    · have hmem : 0 < plane.linesize ∧ i / plane.linesize ∈ y :: ys :=
        ⟨hys.1, List.mem_cons_of_mem _ hys.2⟩
      rw [if_pos hys, if_pos hmem]
    · rw [if_neg hys]
      by_cases hy : y * plane.linesize ≤ i ∧ i < y * plane.linesize + plane.linesize
      · have hq := (row_of_offset plane.linesize y i).1 hy
        have hmem : 0 < plane.linesize ∧ i / plane.linesize ∈ y :: ys :=
          ⟨hq.1, by rw [hq.2]; exact List.mem_cons_self _ _⟩
        have hcol : i - y * plane.linesize = i % plane.linesize := by
          have h := Nat.div_add_mod i plane.linesize
          rw [hq.2, Nat.mul_comm] at h
          omega
        rw [if_pos hmem]
        simp only [memcpy, if_pos hy, hcol, hq.2]
      · have hmem : ¬ (0 < plane.linesize ∧ i / plane.linesize ∈ y :: ys) := by
          rintro ⟨hL, hm⟩
          rcases List.mem_cons.1 hm with h | h
          · exact hy ((row_of_offset plane.linesize y i).2 ⟨hL, h⟩)
          · exact hys ⟨hL, h⟩
        rw [if_neg hmem]
        simp only [memcpy, if_neg hy]

/-- C3: the plane copy of `make_write_frame`, with the rows `0 .. H-1` taken
in any order and for every source stride `S` (so in particular for
`S ≥ L`): destination bytes `[y*L, y*L+L)` equal source bytes `[y*S, y*S+L)`
for every row `y < H`, no destination byte at or beyond `L*H` is written, the
destination equals the first `L*H` source bytes when `S = L`, and the result
is the one of the ascending row order. -/
theorem make_write_frame_copy_plane_rows (plane : core.plane) (decoded result : buffer)
    (S : Nat) (rows : List Nat) (hrows : rows.Perm (List.range plane.height)) :
    (∀ y x, y < plane.height → x < plane.linesize →
      make_write_frame_copy_rows plane decoded S rows result (y * plane.linesize + x)
        = decoded (y * S + x)) ∧
    (∀ i, plane.linesize * plane.height ≤ i →
      make_write_frame_copy_rows plane decoded S rows result i = result i) ∧
    (S = plane.linesize → ∀ i, i < plane.linesize * plane.height →
      make_write_frame_copy_rows plane decoded S rows result i = decoded i) ∧
    (∀ i, make_write_frame_copy_rows plane decoded S rows result i
      = make_write_frame_copy_plane plane decoded S result i) := by
  have hmem : ∀ q, q ∈ rows ↔ q < plane.height := fun q => by
    rw [hrows.mem_iff, List.mem_range]
  refine ⟨?_, ?_, ?_, ?_⟩
  · intro y x hy hx
    have hL : 0 < plane.linesize := Nat.lt_of_le_of_lt (Nat.zero_le _) hx
    have hq : (y * plane.linesize + x) / plane.linesize = y := by
      apply Nat.div_eq_of_lt_le
      · exact Nat.le_add_right _ _
      · rw [Nat.add_mul, Nat.one_mul]; omega
    have hr : (y * plane.linesize + x) % plane.linesize = x := by
      rw [Nat.add_comm, Nat.add_mul_mod_self_right, Nat.mod_eq_of_lt hx]
    rw [make_write_frame_copy_rows_apply, hq, hr, if_pos ⟨hL, (hmem y).2 hy⟩]
  · intro i hi
    rw [make_write_frame_copy_rows_apply, if_neg]
    rintro ⟨hL, hm⟩
    have h1 : i / plane.linesize < plane.height := (hmem _).1 hm
    have h2 : i < plane.height * plane.linesize := (Nat.div_lt_iff_lt_mul hL).1 h1
    rw [Nat.mul_comm] at h2
    omega
  · rintro rfl i hi
    have hL : 0 < plane.linesize := by
      rcases Nat.eq_zero_or_pos plane.linesize with h | h
      · rw [h] at hi; omega
      · exact h
    have hq : i / plane.linesize < plane.height :=
      (Nat.div_lt_iff_lt_mul hL).2 (by rw [Nat.mul_comm]; exact hi)
    rw [make_write_frame_copy_rows_apply, if_pos ⟨hL, (hmem _).2 hq⟩, Nat.div_add_mod']
  · intro i
    unfold make_write_frame_copy_plane
    rw [make_write_frame_copy_rows_apply, make_write_frame_copy_rows_apply]
    have : (i / plane.linesize ∈ rows) ↔ (i / plane.linesize ∈ List.range plane.height) :=
      hrows.mem_iff
    simp only [this]

/-- C3 at a concrete input: a plane of two lines of two bytes, source stride
3, rows taken in the order 1, 0: byte 1 of row 1 comes from source offset 4. -/
theorem make_write_frame_copy_plane_rows_witness :
    ([1, 0] : List Nat).Perm (List.range (core.plane.height ⟨2, 2, 1⟩)) ∧
    make_write_frame_copy_rows ⟨2, 2, 1⟩ (fun i => Fin.ofNat i) 3 [1, 0] (fun _ => 0)
        (1 * core.plane.linesize ⟨2, 2, 1⟩ + 1)
      = (fun i => Fin.ofNat i : buffer) (1 * 3 + 1) :=
  ⟨by decide,
   (make_write_frame_copy_plane_rows ⟨2, 2, 1⟩ (fun i => Fin.ofNat i) (fun _ => 0) 3 [1, 0]
     (by decide)).1 1 1 (by decide) (by decide)⟩

/-! ## Field order fix -/

/-- C4: for a decoded frame of positive height the `set_fill_translation`
call of `make_write_frame` is the one the policy table gives for (source
interlaced, source top-field-first, output mode): `+0.5/h` for interlaced,
upper, not top-field-first; `-0.5/h` for interlaced, lower, top-field-first;
no call otherwise. Whenever a translation is set, its horizontal part is 0 and
its vertical part is one of the two nonzero half-line offsets. -/
theorem make_write_frame_fill_translation_policy (decoded_frame : AVFrame)
    (mode : core.video_mode) (hh : 0 < decoded_frame.height) :
    make_write_frame_fill_translation decoded_frame mode
      = fill_translation_table (decide (decoded_frame.interlaced_frame ≠ 0))
          (decide (decoded_frame.top_field_first ≠ 0)) mode (decoded_frame.height : ℚ) ∧
    (∀ t, make_write_frame_fill_translation decoded_frame mode = some t →
      t.1 = 0 ∧ t.2 ≠ 0 ∧
      (t.2 = (1 / 2 : ℚ) / (decoded_frame.height : ℚ)
        ∨ t.2 = -(1 / 2 : ℚ) / (decoded_frame.height : ℚ))) := by
  have hq : (0 : ℚ) < (decoded_frame.height : ℚ) := by exact_mod_cast hh
  have hpos : (1 / 2 : ℚ) / (decoded_frame.height : ℚ) ≠ 0 := by positivity
  have hneg : -(1 / 2 : ℚ) / (decoded_frame.height : ℚ) ≠ 0 := by
    rw [neg_div]; exact neg_ne_zero.2 hpos
  have htable : make_write_frame_fill_translation decoded_frame mode
      = fill_translation_table (decide (decoded_frame.interlaced_frame ≠ 0))
          (decide (decoded_frame.top_field_first ≠ 0)) mode (decoded_frame.height : ℚ) := by
    unfold make_write_frame_fill_translation fill_translation_table
    by_cases hi : decoded_frame.interlaced_frame = 0 <;>
    by_cases ht : decoded_frame.top_field_first = 0 <;>
    cases mode <;> simp [hi, ht]
  refine ⟨htable, ?_⟩
  intro t ht
  rw [htable] at ht
  unfold fill_translation_table at ht
  split_ifs at ht
  · cases ht
    exact ⟨rfl, hpos, Or.inl rfl⟩
  · cases ht
    exact ⟨rfl, hneg, Or.inr rfl⟩

/-- C4 at a concrete input: an interlaced 720x576 frame that is not
top-field-first, on an upper-field-first output, is shifted by `+0.5/576`. -/
theorem make_write_frame_fill_translation_policy_witness :
    (0 : Int) < (AVFrame.mk 720 576 0 1 0).height ∧
    make_write_frame_fill_translation (AVFrame.mk 720 576 0 1 0) core.video_mode.upper
      = some (0, (1 / 2 : ℚ) / 576) := by
  refine ⟨by decide, ?_⟩
  rw [(make_write_frame_fill_translation_policy (AVFrame.mk 720 576 0 1 0)
    core.video_mode.upper (by decide)).1]
  simp [fill_translation_table]

/-! ## Presentation loop -/

/-- The loop of `run` from any state: with no pass raising, a run of non-null
pointers followed by the null pointer is rendered in order and the loop exits
on the null pointer, leaving what follows it in the channel. -/
theorem run_loop_drains (env : Nat → ogl.cycle_outcome)
    (henv : ∀ k, env k ≠ ogl.cycle_outcome.raised) (frames rest : List gpu_frame_ptr)
    (hframes : ∀ p ∈ frames, p ≠ gpu_frame_ptr.nullptr) (s : ogl.run_state) :
    ∃ s', ogl.run_loop env (frames ++ gpu_frame_ptr.nullptr :: rest) s
        = ogl.run_result.exited s' rest
      ∧ s'.rendered = s.rendered ++ frames.filterMap ogl.deref
      ∧ s'.pops = s.pops + frames.length + 1
      ∧ s'.exception_ = s.exception_ := by
  induction frames generalizing s with
  | nil =>
    refine ⟨{ s with pops := s.pops + 1 }, ?_, ?_, ?_, ?_⟩ <;> simp [ogl.run_loop, ogl.deref]
  | cons p ps ih =>
    have hp : p ≠ gpu_frame_ptr.nullptr := hframes p (List.mem_cons_self _ _)
    have hps : ∀ q ∈ ps, q ≠ gpu_frame_ptr.nullptr :=
      fun q hq => hframes q (List.mem_cons_of_mem _ hq)
    obtain ⟨f, hf⟩ : ∃ f, ogl.deref p = some f := by
      cases p with
      | nullptr => exact absurd rfl hp
      | null => exact ⟨_, rfl⟩
      | frame f => exact ⟨_, rfl⟩
    cases hk : env s.pops with
    | raised => exact absurd hk (henv _)
    | completed mapped =>
      obtain ⟨s', h1, h2, h3, h4⟩ := ih hps
        { s with gl := ogl.render f mapped s.gl, rendered := s.rendered ++ [f],
                 pops := s.pops + 1 }
      refine ⟨s', ?_, ?_, ?_, ?_⟩
      · rw [← h1]
        simp only [List.cons_append, ogl.run_loop, hf, hk]
        rfl
      · rw [h2]
        simp [List.filterMap_cons, hf]
      · rw [h3]
        simp only [List.length_cons]
        omega
      · rw [h4]

/-- C5: with a render step that raises no error, `run` on a channel that
delivers `N` non-null frames and then the null pointer renders exactly those
`N` frames, once each and in the order pushed, renders nothing for the null
pointer, and leaves its loop right after the pop that returned the null
pointer: it made `N + 1` pops and whatever follows stays in the channel. -/
theorem run_renders_all_then_exits (env : Nat → ogl.cycle_outcome)
    (henv : ∀ k, env k ≠ ogl.cycle_outcome.raised) (frames rest : List gpu_frame_ptr)
    (hframes : ∀ p ∈ frames, p ≠ gpu_frame_ptr.nullptr) :
    ∃ s, ogl.run env (frames ++ gpu_frame_ptr.nullptr :: rest) = ogl.run_result.exited s rest
      ∧ s.rendered = frames.filterMap ogl.deref
      ∧ s.rendered.length = frames.length
      ∧ s.pops = frames.length + 1
      ∧ s.exception_ = false := by
  obtain ⟨s, h1, h2, h3, h4⟩ := run_loop_drains env henv frames rest hframes
    { gl := ogl.init, exception_ := false, rendered := [], pops := 0 }
  have hlen : (frames.filterMap ogl.deref).length = frames.length := by
    clear h1 h2 h3 h4
    induction frames with
    | nil => rfl
    | cons p ps ih =>
      have hps : ∀ q ∈ ps, q ≠ gpu_frame_ptr.nullptr :=
        fun q hq => hframes q (List.mem_cons_of_mem _ hq)
      cases p with
      | nullptr => exact absurd rfl (hframes _ (List.mem_cons_self _ _))
      | null => simp [List.filterMap_cons, ogl.deref, ih hps]
      | frame f => simp [List.filterMap_cons, ogl.deref, ih hps]
  refine ⟨s, h1, ?_, ?_, ?_, ?_⟩
  · simpa using h2
  · rw [h2]; simpa using hlen
  · simpa using h3
  · simpa using h4

/-- C5 at a concrete input: two frames and then the null pointer. -/
theorem run_renders_all_then_exits_witness :
    ∃ s, ogl.run (fun _ => ogl.cycle_outcome.completed true)
          [gpu_frame_ptr.frame ⟨[1]⟩, gpu_frame_ptr.frame ⟨[2]⟩, gpu_frame_ptr.nullptr]
        = ogl.run_result.exited s []
      ∧ s.rendered = [⟨[1]⟩, ⟨[2]⟩] ∧ s.pops = 3 := by
  obtain ⟨s, h1, h2, _, h4, _⟩ := run_renders_all_then_exits
    (fun _ => ogl.cycle_outcome.completed true) (fun _ h => by cases h)
    [gpu_frame_ptr.frame ⟨[1]⟩, gpu_frame_ptr.frame ⟨[2]⟩] []
    (fun p hp => by
      simp only [List.mem_cons, List.mem_singleton, List.not_mem_nil, or_false] at hp
      rcases hp with rfl | rfl <;> exact fun h => by cases h)
  exact ⟨s, h1, by simpa [ogl.deref] using h2, h4⟩

/-! ## Transfer buffer index -/

/-- One `render` call flips `pbo_index_` between 0 and 1. -/
theorem render_pbo_index (frame : gpu_frame) (mapped : Bool) (s : ogl.implementation) :
    (ogl.render frame mapped s).pbo_index_ = s.pbo_index_ ^^^ 1 := by
  unfold ogl.render
  rfl

/-- After any cycles from a state whose index is 0 or 1, `pbo_index_` is the
start index plus the number of cycles, modulo 2. -/
theorem render_cycles_pbo_index (cycles : List (gpu_frame × Bool)) (s : ogl.implementation)
    (hs : s.pbo_index_ < 2) :
    (ogl.render_cycles cycles s).pbo_index_ = (s.pbo_index_ + cycles.length) % 2 := by
  induction cycles generalizing s with
  | nil =>
    simp only [ogl.render_cycles, List.foldl_nil, List.length_nil, Nat.add_zero]
    exact (Nat.mod_eq_of_lt hs).symm
  | cons c cs ih =>
    have hflip : (ogl.render c.1 c.2 s).pbo_index_ = (s.pbo_index_ + 1) % 2 := by
      rw [render_pbo_index]
      have h : s.pbo_index_ = 0 ∨ s.pbo_index_ = 1 := by omega
      rcases h with h | h <;> rw [h] <;> rfl
    have hlt : (ogl.render c.1 c.2 s).pbo_index_ < 2 := by
      rw [hflip]; exact Nat.mod_lt _ (by decide)
    have hstep : ogl.render_cycles (c :: cs) s = ogl.render_cycles cs (ogl.render c.1 c.2 s) :=
      rfl
    rw [hstep, ih _ hlt, hflip, List.length_cons]
    omega

/-- C7, as stated, fails before the first cycle: after `init` the buffer the
next `render` call maps and fills is buffer 1, not buffer `0 mod 2`. -/
theorem writable_index_after_init_is_one :
    ogl.writable_index (ogl.render_cycles [] ogl.init) = 1 ∧
    ogl.writable_index (ogl.render_cycles [] ogl.init) ≠ 0 % 2 := by
  decide

/-- C7, amended: after `init` and `K` calls of `render`, whatever the frames
and mapping outcomes, `pbo_index_` (the buffer the next call binds for the
texture update) is `K mod 2`, and the writable buffer index (the one the next
call maps and fills) is `(K + 1) mod 2`. -/
theorem render_cycles_buffer_indices (cycles : List (gpu_frame × Bool)) :
    (ogl.render_cycles cycles ogl.init).pbo_index_ = cycles.length % 2 ∧
    ogl.writable_index (ogl.render_cycles cycles ogl.init) = (cycles.length + 1) % 2 := by
  have h := render_cycles_pbo_index cycles ogl.init (by decide)
  have h0 : ogl.init.pbo_index_ = 0 := rfl
  rw [h0, Nat.zero_add] at h
  refine ⟨h, ?_⟩
  unfold ogl.writable_index
  rw [h]
  rcases Nat.mod_two_eq_zero_or_one cycles.length with h2 | h2
  · have h3 : (cycles.length + 1) % 2 = 1 := by omega
    rw [h2, h3]
    rfl
  · have h3 : (cycles.length + 1) % 2 = 0 := by omega
    rw [h2, h3]
    rfl

/-! ## Fit modes -/

/-- C9: for positive source size `(w, h)` and surface size `(W, H)`, in exact
rational arithmetic, `Uniform` returns `(sx, sy)` with
`sx = min(1, H*(w/h)/W)`, both scales in `(0, 1]`, at least one of them 1, and
`(sx*W)/(sy*H) = w/h`; for source 1920x1080 on surface 1280x720 it returns
`(1, 1)`. -/
theorem Uniform_fits_and_keeps_aspect (w h size W H : Nat) (hw : 0 < w) (hh : 0 < h)
    (hW : 0 < W) (hH : 0 < H) :
    (ogl.Uniform ⟨w, h, size⟩ W H).1 = min 1 ((H : ℚ) * ((w : ℚ) / (h : ℚ)) / (W : ℚ)) ∧
    0 < (ogl.Uniform ⟨w, h, size⟩ W H).1 ∧ (ogl.Uniform ⟨w, h, size⟩ W H).1 ≤ 1 ∧
    0 < (ogl.Uniform ⟨w, h, size⟩ W H).2 ∧ (ogl.Uniform ⟨w, h, size⟩ W H).2 ≤ 1 ∧
    ((ogl.Uniform ⟨w, h, size⟩ W H).1 = 1 ∨ (ogl.Uniform ⟨w, h, size⟩ W H).2 = 1) ∧
    ((ogl.Uniform ⟨w, h, size⟩ W H).1 * (W : ℚ)) / ((ogl.Uniform ⟨w, h, size⟩ W H).2 * (H : ℚ))
      = (w : ℚ) / (h : ℚ) ∧
    ogl.Uniform ⟨1920, 1080, size⟩ 1280 720 = (1, 1) := by
  have hw' : (0 : ℚ) < (w : ℚ) := by exact_mod_cast hw
  have hh' : (0 : ℚ) < (h : ℚ) := by exact_mod_cast hh
  have hW' : (0 : ℚ) < (W : ℚ) := by exact_mod_cast hW
  have hH' : (0 : ℚ) < (H : ℚ) := by exact_mod_cast hH
  have hasp : (0 : ℚ) < (w : ℚ) / (h : ℚ) := div_pos hw' hh'
  have hd : (0 : ℚ) < (H : ℚ) * ((w : ℚ) / (h : ℚ)) := mul_pos hH' hasp
  have ha : (0 : ℚ) < (H : ℚ) * ((w : ℚ) / (h : ℚ)) / (W : ℚ) := div_pos hd hW'
  have hfst : (ogl.Uniform ⟨w, h, size⟩ W H).1
      = min 1 ((H : ℚ) * ((w : ℚ) / (h : ℚ)) / (W : ℚ)) := rfl
  have hsnd : (ogl.Uniform ⟨w, h, size⟩ W H).2
      = ((W : ℚ) * min 1 ((H : ℚ) * ((w : ℚ) / (h : ℚ)) / (W : ℚ)))
          / ((H : ℚ) * ((w : ℚ) / (h : ℚ))) := rfl
  have hm : (0 : ℚ) < min 1 ((H : ℚ) * ((w : ℚ) / (h : ℚ)) / (W : ℚ)) :=
    lt_min one_pos ha
  have hnum : (0 : ℚ) < (W : ℚ) * min 1 ((H : ℚ) * ((w : ℚ) / (h : ℚ)) / (W : ℚ)) :=
    mul_pos hW' hm
  refine ⟨hfst, ?_, ?_, ?_, ?_, ?_, ?_, ?_⟩
  · rw [hfst]; exact hm
  · rw [hfst]; exact min_le_left _ _
  · rw [hsnd]; exact div_pos hnum hd
  · rw [hsnd, div_le_one hd]
    calc (W : ℚ) * min 1 ((H : ℚ) * ((w : ℚ) / (h : ℚ)) / (W : ℚ))
        ≤ (W : ℚ) * ((H : ℚ) * ((w : ℚ) / (h : ℚ)) / (W : ℚ)) :=
          mul_le_mul_of_nonneg_left (min_le_right _ _) hW'.le
      _ = (H : ℚ) * ((w : ℚ) / (h : ℚ)) := by field_simp; ring
  · rcases le_total 1 ((H : ℚ) * ((w : ℚ) / (h : ℚ)) / (W : ℚ)) with hle | hle
    · left
      rw [hfst, min_eq_left hle]
    · right
      rw [hsnd, min_eq_right hle]
      field_simp
      ring
  · rw [hfst, hsnd]
    have hm' := hm.ne'
    field_simp
    ring
  · simp only [ogl.Uniform]
    norm_num

/-- C10: for positive source size `(w, h)` and surface size `(W, H)`, in exact
rational arithmetic with `wr = w/W` and `hr = h/H`, `UniformToFill` returns
`(wr/min(wr,hr), hr/min(wr,hr))`: both scales are at least 1, the scale of the
axis with the smaller ratio is exactly 1 and the other is
`max(wr,hr)/min(wr,hr)`, and `(sx*W)/(sy*H) = w/h`. -/
theorem UniformToFill_covers_and_keeps_aspect (w h size W H : Nat) (hw : 0 < w) (hh : 0 < h)
    (hW : 0 < W) (hH : 0 < H) :
    ogl.UniformToFill ⟨w, h, size⟩ W H
      = (((w : ℚ) / (W : ℚ)) / min ((w : ℚ) / (W : ℚ)) ((h : ℚ) / (H : ℚ)),
         ((h : ℚ) / (H : ℚ)) / min ((w : ℚ) / (W : ℚ)) ((h : ℚ) / (H : ℚ))) ∧
    1 ≤ (ogl.UniformToFill ⟨w, h, size⟩ W H).1 ∧
    1 ≤ (ogl.UniformToFill ⟨w, h, size⟩ W H).2 ∧
    ((w : ℚ) / (W : ℚ) ≤ (h : ℚ) / (H : ℚ) →
      (ogl.UniformToFill ⟨w, h, size⟩ W H).1 = 1 ∧
      (ogl.UniformToFill ⟨w, h, size⟩ W H).2
        = max ((w : ℚ) / (W : ℚ)) ((h : ℚ) / (H : ℚ))
            / min ((w : ℚ) / (W : ℚ)) ((h : ℚ) / (H : ℚ))) ∧
    ((h : ℚ) / (H : ℚ) ≤ (w : ℚ) / (W : ℚ) →
      (ogl.UniformToFill ⟨w, h, size⟩ W H).2 = 1 ∧
      (ogl.UniformToFill ⟨w, h, size⟩ W H).1
        = max ((w : ℚ) / (W : ℚ)) ((h : ℚ) / (H : ℚ))
            / min ((w : ℚ) / (W : ℚ)) ((h : ℚ) / (H : ℚ))) ∧
    ((ogl.UniformToFill ⟨w, h, size⟩ W H).1 * (W : ℚ))
        / ((ogl.UniformToFill ⟨w, h, size⟩ W H).2 * (H : ℚ))
      = (w : ℚ) / (h : ℚ) := by
  have hw' : (0 : ℚ) < (w : ℚ) := by exact_mod_cast hw
  have hh' : (0 : ℚ) < (h : ℚ) := by exact_mod_cast hh
  have hW' : (0 : ℚ) < (W : ℚ) := by exact_mod_cast hW
  have hH' : (0 : ℚ) < (H : ℚ) := by exact_mod_cast hH
  have hwr : (0 : ℚ) < (w : ℚ) / (W : ℚ) := div_pos hw' hW'
  have hhr : (0 : ℚ) < (h : ℚ) / (H : ℚ) := div_pos hh' hH'
  have hm : (0 : ℚ) < min ((w : ℚ) / (W : ℚ)) ((h : ℚ) / (H : ℚ)) := lt_min hwr hhr
  have hfst : (ogl.UniformToFill ⟨w, h, size⟩ W H).1
      = ((w : ℚ) / (W : ℚ)) / min ((w : ℚ) / (W : ℚ)) ((h : ℚ) / (H : ℚ)) := by
    simp only [ogl.UniformToFill]
    rw [mul_one_div]
  have hsnd : (ogl.UniformToFill ⟨w, h, size⟩ W H).2
      = ((h : ℚ) / (H : ℚ)) / min ((w : ℚ) / (W : ℚ)) ((h : ℚ) / (H : ℚ)) := by
    simp only [ogl.UniformToFill]
    rw [mul_one_div]
  refine ⟨Prod.ext hfst hsnd, ?_, ?_, ?_, ?_, ?_⟩
  · rw [hfst, one_le_div hm]
    exact min_le_left _ _
  · rw [hsnd, one_le_div hm]
    exact min_le_right _ _
  · intro hle
    rw [hfst, hsnd, min_eq_left hle, max_eq_right hle]
    exact ⟨div_self hwr.ne', rfl⟩
  · intro hle
    rw [hfst, hsnd, min_eq_right hle, max_eq_left hle]
    exact ⟨div_self hhr.ne', rfl⟩
  · rw [hfst, hsnd]
    have hm' := hm.ne'
    field_simp
    ring

/-- C9 at a concrete input: 1920x1080 on a 1024x768 surface keeps the full
width and scales the height by 3/4. -/
theorem Uniform_fits_and_keeps_aspect_witness :
    ogl.Uniform ⟨1920, 1080, 0⟩ 1024 768 = (1, 3 / 4) ∧
    ((ogl.Uniform ⟨1920, 1080, 0⟩ 1024 768).1 * ((1024 : ℕ) : ℚ))
        / ((ogl.Uniform ⟨1920, 1080, 0⟩ 1024 768).2 * ((768 : ℕ) : ℚ))
      = ((1920 : ℕ) : ℚ) / ((1080 : ℕ) : ℚ) := by
  refine ⟨?_, (Uniform_fits_and_keeps_aspect 1920 1080 0 1024 768 (by decide) (by decide)
    (by decide) (by decide)).2.2.2.2.2.2.1⟩
  simp only [ogl.Uniform]
  norm_num

/-- C10 at a concrete input: 1920x1080 on a 1024x768 surface keeps the full
height and scales the width by 4/3. -/
theorem UniformToFill_covers_and_keeps_aspect_witness :
    ogl.UniformToFill ⟨1920, 1080, 0⟩ 1024 768 = (4 / 3, 1) ∧
    1 ≤ (ogl.UniformToFill ⟨1920, 1080, 0⟩ 1024 768).1 := by
  refine ⟨?_, (UniformToFill_covers_and_keeps_aspect 1920 1080 0 1024 768 (by decide)
    (by decide) (by decide) (by decide)).2.1⟩
  simp only [ogl.UniformToFill]
  norm_num

/-! ## Flash producer: control command retries -/

/-- A rejected attempt below the bound goes round the loop again. -/
theorem param_loop_retry (CallFunction : Nat → Bool) (retries : Nat)
    (hrej : CallFunction retries = false) (hle : retries ≤ 3) :
    flash.param_loop CallFunction retries = flash.param_loop CallFunction (retries + 1) := by
  rw [flash.param_loop]
  have h : ¬ retries > 3 := by omega
  simp [hrej, h]

/-- A rejected attempt with the counter above 3 throws. -/
theorem param_loop_throw (CallFunction : Nat → Bool) (retries : Nat)
    (hrej : CallFunction retries = false) (hgt : retries > 3) :
    flash.param_loop CallFunction retries = (retries + 1, true) := by
  rw [flash.param_loop]
  simp [hrej, hgt]

/-- An accepted attempt ends the loop. -/
theorem param_loop_accept (CallFunction : Nat → Bool) (retries : Nat)
    (hacc : CallFunction retries = true) :
    flash.param_loop CallFunction retries = (retries + 1, false) := by
  rw [flash.param_loop]
  simp [hacc]

/-- A command rejected on every attempt is attempted five times, then the
loop throws. -/
theorem param_loop_exhausted (CallFunction : Nat → Bool)
    (hrej : ∀ k, CallFunction k = false) : flash.param_loop CallFunction 0 = (5, true) := by
  rw [param_loop_retry _ 0 (hrej 0) (by decide), param_loop_retry _ 1 (hrej 1) (by decide),
    param_loop_retry _ 2 (hrej 2) (by decide), param_loop_retry _ 3 (hrej 3) (by decide),
    param_loop_throw _ 4 (hrej 4) (by decide)]

/-- A command first accepted on attempt `j` of at most five is attempted `j`
times and the loop ends without throwing. -/
theorem param_loop_first_accept (CallFunction : Nat → Bool) (j : Nat) (hj1 : 1 ≤ j)
    (hj5 : j ≤ 5) (hrej : ∀ k, k + 1 < j → CallFunction k = false)
    (hacc : CallFunction (j - 1) = true) : flash.param_loop CallFunction 0 = (j, false) := by
  have h0 := param_loop_retry CallFunction 0
  have h1 := param_loop_retry CallFunction 1
  have h2 := param_loop_retry CallFunction 2
  have h3 := param_loop_retry CallFunction 3
  interval_cases j
  · exact param_loop_accept _ 0 hacc
  · rw [h0 (hrej 0 (by decide)) (by decide)]
    exact param_loop_accept _ 1 hacc
  · rw [h0 (hrej 0 (by decide)) (by decide), h1 (hrej 1 (by decide)) (by decide)]
    exact param_loop_accept _ 2 hacc
  · rw [h0 (hrej 0 (by decide)) (by decide), h1 (hrej 1 (by decide)) (by decide),
      h2 (hrej 2 (by decide)) (by decide)]
    exact param_loop_accept _ 3 hacc
  · rw [h0 (hrej 0 (by decide)) (by decide), h1 (hrej 1 (by decide)) (by decide),
      h2 (hrej 2 (by decide)) (by decide), h3 (hrej 3 (by decide)) (by decide)]
    exact param_loop_accept _ 4 hacc

/-- Where `param` reaches its retry block: on a running producer at once, on
a stopped one after a `start` that raises nothing, which sets the is-empty
flag and starts the executor. -/
theorem param_reaches_invoke (created : Bool) (CallFunction : Nat → Bool)
    (s : flash.implementation) (h : s.running = true ∨ created = true) :
    flash.param created CallFunction s
      = flash.param_invoke CallFunction
          (if s.running then s else { s with is_empty_ := true, running := true }) := by
  unfold flash.param
  cases hrun : s.running with
  | true => simp
  | false =>
    have hc : created = true := by
      rcases h with h | h
      · rw [hrun] at h; cases h
      · exact h
    simp [flash.start, flash.executor_stop, hrun, hc]

/-- C8: in the block `param` runs on the worker, a command that `CallFunction`
rejects on every attempt is attempted exactly 5 times, then `operation_failed`
is raised and the state, the is-empty flag included, is as before; a command
first accepted on attempt `j`, `1 ≤ j ≤ 5`, is attempted exactly `j` times,
raises nothing and sets the is-empty flag to false. The same holds of `param`
as a whole, on a running producer and on a stopped one (whose flag `stop` has
set) that `start` brings up again. -/
theorem param_retry_budget (CallFunction : Nat → Bool) (s : flash.implementation) :
    ((∀ k, CallFunction k = false) →
      flash.param_invoke CallFunction s = ⟨s, some flash.error.operation_failed, 5⟩) ∧
    (∀ j, 1 ≤ j → j ≤ 5 → (∀ k, k + 1 < j → CallFunction k = false) →
      CallFunction (j - 1) = true →
      flash.param_invoke CallFunction s = ⟨{ s with is_empty_ := false }, none, j⟩) ∧
    (∀ created, s.running = true ∨ (created = true ∧ s.is_empty_ = true) →
      (∀ k, CallFunction k = false) →
      (flash.param created CallFunction s).calls = 5 ∧
      (flash.param created CallFunction s).raised = some flash.error.operation_failed ∧
      (flash.param created CallFunction s).state.is_empty_ = s.is_empty_) ∧
    (∀ created, s.running = true ∨ created = true →
      ∀ j, 1 ≤ j → j ≤ 5 → (∀ k, k + 1 < j → CallFunction k = false) →
      CallFunction (j - 1) = true →
      (flash.param created CallFunction s).calls = j ∧
      (flash.param created CallFunction s).raised = none ∧
      (flash.param created CallFunction s).state.is_empty_ = false) := by
  have hrej : ∀ t : flash.implementation, (∀ k, CallFunction k = false) →
      flash.param_invoke CallFunction t = ⟨t, some flash.error.operation_failed, 5⟩ := by
    intro t h
    unfold flash.param_invoke
    rw [param_loop_exhausted _ h]
    rfl
  have hacc : ∀ t : flash.implementation, ∀ j, 1 ≤ j → j ≤ 5 →
      (∀ k, k + 1 < j → CallFunction k = false) → CallFunction (j - 1) = true →
      flash.param_invoke CallFunction t = ⟨{ t with is_empty_ := false }, none, j⟩ := by
    intro t j hj1 hj5 h1 h2
    unfold flash.param_invoke
    rw [param_loop_first_accept _ j hj1 hj5 h1 h2]
    rfl
  refine ⟨hrej s, hacc s, ?_, ?_⟩
  · intro created hstate h
    have hreach := param_reaches_invoke created CallFunction s
      (hstate.imp_right (fun hc => hc.1))
    rw [hreach, hrej _ h]
    refine ⟨rfl, rfl, ?_⟩
    cases hrun : s.running with
    | true => simp
    | false =>
      rcases hstate with hr | ⟨_, he⟩
      · rw [hrun] at hr; cases hr
      · simp [he]
  · intro created hstate j hj1 hj5 h1 h2
    rw [param_reaches_invoke created CallFunction s hstate, hacc _ j hj1 hj5 h1 h2]
    exact ⟨rfl, rfl, rfl⟩

/-- C8 at concrete inputs: always rejected, and first accepted on the third
attempt, on a running producer with the flag set. -/
theorem param_retry_budget_witness :
    flash.param_invoke (fun _ => false) ⟨[], gpu_frame_ptr.nullptr, true, true⟩
      = ⟨⟨[], gpu_frame_ptr.nullptr, true, true⟩, some flash.error.operation_failed, 5⟩ ∧
    flash.param_invoke (fun k => decide (2 ≤ k)) ⟨[], gpu_frame_ptr.nullptr, true, true⟩
      = ⟨⟨[], gpu_frame_ptr.nullptr, false, true⟩, none, 3⟩ :=
  ⟨(param_retry_budget (fun _ => false) ⟨[], gpu_frame_ptr.nullptr, true, true⟩).1
      (fun _ => rfl),
   (param_retry_budget (fun k => decide (2 ≤ k)) ⟨[], gpu_frame_ptr.nullptr, true, true⟩).2.1
      3 (by decide) (by decide) (fun k hk => by
        have h : k < 2 := by omega
        simp only [decide_eq_false_iff_not, not_le]
        exact h) (by decide)⟩

/-! ## Flash producer: frame repetition on underflow -/

/-- Appending one return to the log. -/
theorem last_retrieved_append (returns : List gpu_frame_ptr) (r : gpu_frame_ptr) :
    flash.last_retrieved (returns ++ [r])
      = if r = gpu_frame_ptr.null then flash.last_retrieved returns else r := by
  unfold flash.last_retrieved
  by_cases h : r = gpu_frame_ptr.null
  · subst h
    simp [List.filter_append]
  · have hb : (r != gpu_frame_ptr.null) = true := by simpa using h
    have hr : List.filter (fun q => q != gpu_frame_ptr.null) [r] = [r] := by
      simp [List.filter, hb]
    rw [if_neg h, List.filter_append, hr, List.getLast?_concat]
    rfl

/-- The worker's exit cleanup pushes the null pointer, not the sentinel, and
keeps `last_frame_`. -/
theorem run_exit_sentinel_free (s : flash.implementation) (h : flash.sentinel_free s) :
    flash.sentinel_free (flash.run_exit s) ∧ (flash.run_exit s).last_frame_ = s.last_frame_ := by
  refine ⟨⟨h.1, ?_⟩, rfl⟩
  intro p hp
  have hp' : p = gpu_frame_ptr.nullptr := by simpa [flash.run_exit] using hp
  rw [hp']
  decide

/-- Stopping the executor keeps the state free of the sentinel and keeps
`last_frame_`. -/
theorem executor_stop_sentinel_free (s : flash.implementation) (h : flash.sentinel_free s) :
    flash.sentinel_free (flash.executor_stop s)
      ∧ (flash.executor_stop s).last_frame_ = s.last_frame_ := by
  unfold flash.executor_stop
  split_ifs
  · exact run_exit_sentinel_free { s with running := false } h
  · exact ⟨h, rfl⟩

/-- The method `stop` keeps the state free of the sentinel and keeps
`last_frame_`. -/
theorem stop_sentinel_free (s : flash.implementation) (h : flash.sentinel_free s) :
    flash.sentinel_free (flash.stop s) ∧ (flash.stop s).last_frame_ = s.last_frame_ := by
  unfold flash.stop
  dsimp only
  split_ifs
  · exact executor_stop_sentinel_free
      { frame_buffer_ := [], last_frame_ := s.last_frame_, is_empty_ := true,
        running := s.running }
      ⟨h.1, fun p hp => absurd hp (List.not_mem_nil p)⟩
  · exact ⟨h, rfl⟩

/-- The method `start` keeps the state free of the sentinel and keeps
`last_frame_`, whether or not it raises. -/
theorem start_sentinel_free (force created : Bool) (s : flash.implementation)
    (h : flash.sentinel_free s) :
    flash.sentinel_free (flash.start force created s).state
      ∧ (flash.start force created s).state.last_frame_ = s.last_frame_ := by
  have h1 := executor_stop_sentinel_free { s with is_empty_ := true } h
  have h2 := stop_sentinel_free
    { flash.executor_stop { s with is_empty_ := true } with running := true } h1.1
  unfold flash.start
  split_ifs
  · exact ⟨h, rfl⟩
  · exact h1
  · exact ⟨h2.1, h2.2.trans h1.2⟩

/-- The retry block of `param` touches neither the channel nor `last_frame_`. -/
theorem param_invoke_sentinel_free (CallFunction : Nat → Bool) (s : flash.implementation)
    (h : flash.sentinel_free s) :
    flash.sentinel_free (flash.param_invoke CallFunction s).state
      ∧ (flash.param_invoke CallFunction s).state.last_frame_ = s.last_frame_ := by
  unfold flash.param_invoke
  dsimp only
  split_ifs
  · exact ⟨h, rfl⟩
  · exact ⟨h, rfl⟩

/-- The method `param` keeps the state free of the sentinel and keeps
`last_frame_`, whether or not it raises. -/
theorem param_sentinel_free (created : Bool) (CallFunction : Nat → Bool)
    (s : flash.implementation) (h : flash.sentinel_free s) :
    flash.sentinel_free (flash.param created CallFunction s).state
      ∧ (flash.param created CallFunction s).state.last_frame_ = s.last_frame_ := by
  have h1 := start_sentinel_free true created s h
  unfold flash.param
  by_cases hrun : s.running = true
  · simp only [hrun, Bool.not_true, Bool.false_eq_true, if_false]
    exact param_invoke_sentinel_free CallFunction s h
  · simp only [hrun, Bool.not_false, if_true]
    cases hr : (flash.start true created s).raised with
    | some e => exact h1
    | none =>
      have h2 := param_invoke_sentinel_free CallFunction _ h1.1
      exact ⟨h2.1, h2.2.trans h1.2⟩

/-- A worker render pass pushes a factory frame, not the sentinel, and keeps
`last_frame_`. -/
theorem render_sentinel_free (capacity : Nat) (result : gpu_frame) (IsEmpty : Bool)
    (s : flash.implementation) (h : flash.sentinel_free s) :
    flash.sentinel_free (flash.render capacity result IsEmpty s)
      ∧ (flash.render capacity result IsEmpty s).last_frame_ = s.last_frame_ := by
  unfold flash.render
  split_ifs
  · refine ⟨⟨h.1, ?_⟩, rfl⟩
    intro p hp
    rcases List.mem_append.1 hp with hp | hp
    · exact h.2 p hp
    · have hp' : p = gpu_frame_ptr.frame result := by simpa using hp
      rw [hp']
      exact fun hcontra => by cases hcontra
  · exact ⟨h, rfl⟩

/-- Every action keeps the state free of the sentinel and keeps `last_frame_`
equal to the most recent return of `get_frame` that is not the sentinel. -/
theorem step_invariant (capacity : Nat) (st : flash.implementation × List gpu_frame_ptr)
    (a : flash.action) (h : flash.sentinel_free st.1)
    (hlast : st.1.last_frame_ = flash.last_retrieved st.2) :
    flash.sentinel_free (flash.step capacity st a).1
      ∧ (flash.step capacity st a).1.last_frame_
          = flash.last_retrieved (flash.step capacity st a).2 := by
  cases a with
  | get_frame =>
    cases hb : st.1.frame_buffer_ with
    | nil =>
      cases he : st.1.is_empty_ with
      | true =>
        simp only [flash.step, flash.get_frame, hb, he, last_retrieved_append, if_true]
        exact ⟨h, hlast⟩
      | false =>
        simp only [flash.step, flash.get_frame, hb, he, last_retrieved_append,
          Bool.false_eq_true, if_false]
        exact ⟨h, by rw [if_neg h.1]⟩
    | cons f rest =>
      have hf : f ≠ gpu_frame_ptr.null := h.2 f (by rw [hb]; exact List.mem_cons_self _ _)
      simp only [flash.step, flash.get_frame, hb, last_retrieved_append]
      refine ⟨⟨hf, ?_⟩, by rw [if_neg hf]⟩
      intro p hp
      exact h.2 p (by rw [hb]; exact List.mem_cons_of_mem _ hp)
  | param created CallFunction =>
    have h1 := param_sentinel_free created CallFunction st.1 h
    exact ⟨h1.1, h1.2.trans hlast⟩
  | start force created =>
    have h1 := start_sentinel_free force created st.1 h
    exact ⟨h1.1, h1.2.trans hlast⟩
  | stop =>
    have h1 := stop_sentinel_free st.1 h
    exact ⟨h1.1, h1.2.trans hlast⟩
  | render result IsEmpty =>
    have h1 := render_sentinel_free capacity result IsEmpty st.1 h
    exact ⟨h1.1, h1.2.trans hlast⟩

/-- The invariant of `step_invariant` holds after every sequence of actions on
a freshly constructed producer. -/
theorem run_trace_invariant (capacity : Nat) (is_empty_ : Bool) (trace : List flash.action) :
    flash.sentinel_free (flash.run_trace capacity is_empty_ trace).1
      ∧ (flash.run_trace capacity is_empty_ trace).1.last_frame_
          = flash.last_retrieved (flash.run_trace capacity is_empty_ trace).2 := by
  unfold flash.run_trace
  induction trace using List.reverseRecOn with
  | nil =>
    refine ⟨⟨?_, fun p hp => absurd hp (List.not_mem_nil p)⟩, rfl⟩
    show gpu_frame_ptr.nullptr ≠ gpu_frame_ptr.null
    decide
  | append_singleton as a ih =>
    rw [List.foldl_append, List.foldl_cons, List.foldl_nil]
    exact step_invariant capacity _ a ih.1 ih.2

/-- C6, as stated, fails: after `start`, an accepted `param`, one worker pass
that pushes a frame and reports the container empty, a `get_frame` that pops
that frame, a `get_frame` that returns the empty sentinel, and another
accepted `param`, the channel is empty and the flag is false, yet `get_frame`
returns the popped frame, not what the previous call returned. -/
theorem get_frame_after_sentinel_returns_older_frame :
    (flash.run_trace 2 true
      [flash.action.start false true, flash.action.param true (fun _ => true),
       flash.action.render ⟨[1, 2, 3, 4]⟩ true, flash.action.get_frame,
       flash.action.get_frame, flash.action.param true (fun _ => true)]).1.frame_buffer_ = [] ∧
    (flash.run_trace 2 true
      [flash.action.start false true, flash.action.param true (fun _ => true),
       flash.action.render ⟨[1, 2, 3, 4]⟩ true, flash.action.get_frame,
       flash.action.get_frame, flash.action.param true (fun _ => true)]).1.is_empty_ = false ∧
    (flash.run_trace 2 true
      [flash.action.start false true, flash.action.param true (fun _ => true),
       flash.action.render ⟨[1, 2, 3, 4]⟩ true, flash.action.get_frame,
       flash.action.get_frame, flash.action.param true (fun _ => true)]).2
      = [gpu_frame_ptr.frame ⟨[1, 2, 3, 4]⟩, gpu_frame_ptr.null] ∧
    (flash.get_frame (flash.run_trace 2 true
      [flash.action.start false true, flash.action.param true (fun _ => true),
       flash.action.render ⟨[1, 2, 3, 4]⟩ true, flash.action.get_frame,
       flash.action.get_frame, flash.action.param true (fun _ => true)]).1).1
      = gpu_frame_ptr.frame ⟨[1, 2, 3, 4]⟩ ∧
    gpu_frame_ptr.frame ⟨[1, 2, 3, 4]⟩ ≠ gpu_frame_ptr.null := by
  have hacc : flash.param_loop (fun _ => true) 0 = (1, false) :=
    param_loop_accept (fun _ => true) 0 rfl
  refine ⟨?_, ?_, ?_, ?_, by decide⟩ <;>
    simp [flash.run_trace, flash.step, flash.constructed, flash.start, flash.executor_stop,
      flash.param, flash.param_invoke, hacc, flash.render, flash.get_frame]

/-- C6, amended: in every state reached from a freshly constructed producer by
`get_frame`, `param`, `start`, `stop` and worker render passes in which the
channel is empty and the is-empty flag is false, `get_frame` returns
`last_frame_` and leaves the whole state unchanged; the returned pointer is the
most recent pointer other than the empty sentinel that a `get_frame` call
returned (the null pointer if there was none), it is not the empty sentinel,
and it is what the previous `get_frame` call returned unless that call
returned the empty sentinel. -/
theorem get_frame_underflow_repeats_last_retrieved (capacity : Nat) (is_empty_ : Bool)
    (trace : List flash.action)
    (hbuf : (flash.run_trace capacity is_empty_ trace).1.frame_buffer_ = [])
    (hflag : (flash.run_trace capacity is_empty_ trace).1.is_empty_ = false) :
    flash.get_frame (flash.run_trace capacity is_empty_ trace).1
      = ((flash.run_trace capacity is_empty_ trace).1.last_frame_,
         (flash.run_trace capacity is_empty_ trace).1) ∧
    (flash.get_frame (flash.run_trace capacity is_empty_ trace).1).1
      = flash.last_retrieved (flash.run_trace capacity is_empty_ trace).2 ∧
    (flash.get_frame (flash.run_trace capacity is_empty_ trace).1).1 ≠ gpu_frame_ptr.null ∧
    (∀ r, (flash.run_trace capacity is_empty_ trace).2.getLast? = some r →
      r ≠ gpu_frame_ptr.null →
      (flash.get_frame (flash.run_trace capacity is_empty_ trace).1).1 = r) := by
  obtain ⟨hfree, hlast⟩ := run_trace_invariant capacity is_empty_ trace
  have hget : flash.get_frame (flash.run_trace capacity is_empty_ trace).1
      = ((flash.run_trace capacity is_empty_ trace).1.last_frame_,
         (flash.run_trace capacity is_empty_ trace).1) := by
    simp only [flash.get_frame, hbuf, hflag, Bool.false_eq_true, if_false]
  refine ⟨hget, ?_, ?_, ?_⟩
  · rw [hget]; exact hlast
  · rw [hget]; exact hfree.1
  · intro r hr hne
    obtain ⟨ys, hys⟩ := List.getLast?_eq_some_iff.1 hr
    rw [hget]
    show (flash.run_trace capacity is_empty_ trace).1.last_frame_ = r
    rw [hlast, hys, last_retrieved_append, if_neg hne]

/-- C6, amended, at a concrete input: after `start`, an accepted `param`, a
worker pass pushing a frame and one `get_frame`, a second `get_frame` on the
empty channel repeats that frame. -/
theorem get_frame_underflow_repeats_last_retrieved_witness :
    (flash.get_frame (flash.run_trace 2 true
      [flash.action.start false true, flash.action.param true (fun _ => true),
       flash.action.render ⟨[1, 2, 3, 4]⟩ false, flash.action.get_frame]).1).1
      = flash.last_retrieved (flash.run_trace 2 true
      [flash.action.start false true, flash.action.param true (fun _ => true),
       flash.action.render ⟨[1, 2, 3, 4]⟩ false, flash.action.get_frame]).2 ∧
    flash.last_retrieved (flash.run_trace 2 true
      [flash.action.start false true, flash.action.param true (fun _ => true),
       flash.action.render ⟨[1, 2, 3, 4]⟩ false, flash.action.get_frame]).2
      = gpu_frame_ptr.frame ⟨[1, 2, 3, 4]⟩ := by
  have hacc : flash.param_loop (fun _ => true) 0 = (1, false) :=
    param_loop_accept (fun _ => true) 0 rfl
  refine ⟨(get_frame_underflow_repeats_last_retrieved 2 true
      [flash.action.start false true, flash.action.param true (fun _ => true),
       flash.action.render ⟨[1, 2, 3, 4]⟩ false, flash.action.get_frame] ?_ ?_).2.1, ?_⟩ <;>
    simp [flash.run_trace, flash.step, flash.constructed, flash.start, flash.executor_stop,
      flash.param, flash.param_invoke, hacc, flash.render, flash.get_frame,
      flash.last_retrieved]

/-! ## Transfer buffer contents -/

/-- What one `render` call does to the buffers when `pbo_index_` is 0 or 1,
and what the call after it draws. -/
theorem render_buffers_of_index_lt (s : ogl.implementation) (hs : s.pbo_index_ < 2)
    (frame next : gpu_frame) (mapped next_mapped : Bool) :
    (ogl.render frame mapped s).pbo_index_ = ogl.writable_index s ∧
    (ogl.render frame mapped s).pbo s.pbo_index_ = s.pbo s.pbo_index_ ∧
    (ogl.render frame mapped s).pbo (ogl.writable_index s)
      = (if mapped then some frame.data else none) ∧
    (ogl.render next next_mapped (ogl.render frame mapped s)).drawn
      = s.drawn ++ [s.pbo s.pbo_index_, if mapped then some frame.data else none] := by
  obtain ⟨i, p0, p1, d⟩ := s
  have hi : i = 0 ∨ i = 1 := by
    simp only at hs
    omega
  rcases hi with rfl | rfl <;> cases mapped <;>
    simp [ogl.render, ogl.writable_index, ogl.implementation.pbo, ogl.implementation.set_pbo]

/-- C11, as stated, fails: after two cycles that filled buffer 1 with `[1]`
and buffer 0 with `[2]`, a cycle whose mapping yields null leaves the index
flipped, and the cycle after it draws from buffer 1, whose data store the
failed cycle re-allocated: its content is unspecified, not the `[1]` the
buffer held before. -/
theorem render_null_mapping_presents_unspecified :
    (ogl.render_cycles [(⟨[1]⟩, true), (⟨[2]⟩, true)] ogl.init).pbo
        (ogl.writable_index (ogl.render_cycles [(⟨[1]⟩, true), (⟨[2]⟩, true)] ogl.init))
      = some [1] ∧
    (ogl.render ⟨[4]⟩ true
        (ogl.render ⟨[3]⟩ false
          (ogl.render_cycles [(⟨[1]⟩, true), (⟨[2]⟩, true)] ogl.init))).drawn.getLast?
      = some none := by
  decide

/-- C11, amended: in every state reached from `init` by `render` calls, a
`render` call whose mapping yields null flips the buffer index, leaves the
presented buffer as it was and copies nothing into the writable buffer, whose
data store `glBufferData` has re-allocated with unspecified content; the next
cycle draws from that buffer, so it presents unspecified content, not the
pending frame. A call whose mapping succeeds flips the index, leaves the
presented buffer as it was and puts exactly the `frame.size` bytes of the
frame into the writable buffer, which the next cycle draws. -/
theorem render_mapping_outcomes (cycles : List (gpu_frame × Bool)) (frame next : gpu_frame)
    (next_mapped : Bool) :
    ((ogl.render frame false (ogl.render_cycles cycles ogl.init)).pbo_index_
        = ogl.writable_index (ogl.render_cycles cycles ogl.init) ∧
      (ogl.render frame false (ogl.render_cycles cycles ogl.init)).pbo
          (ogl.render_cycles cycles ogl.init).pbo_index_
        = (ogl.render_cycles cycles ogl.init).pbo (ogl.render_cycles cycles ogl.init).pbo_index_ ∧
      (ogl.render frame false (ogl.render_cycles cycles ogl.init)).pbo
          (ogl.writable_index (ogl.render_cycles cycles ogl.init)) = none ∧
      (ogl.render next next_mapped
          (ogl.render frame false (ogl.render_cycles cycles ogl.init))).drawn
        = (ogl.render_cycles cycles ogl.init).drawn
            ++ [(ogl.render_cycles cycles ogl.init).pbo
                  (ogl.render_cycles cycles ogl.init).pbo_index_, none]) ∧
    ((ogl.render frame true (ogl.render_cycles cycles ogl.init)).pbo_index_
        = ogl.writable_index (ogl.render_cycles cycles ogl.init) ∧
      (ogl.render frame true (ogl.render_cycles cycles ogl.init)).pbo
          (ogl.render_cycles cycles ogl.init).pbo_index_
        = (ogl.render_cycles cycles ogl.init).pbo (ogl.render_cycles cycles ogl.init).pbo_index_ ∧
      (ogl.render frame true (ogl.render_cycles cycles ogl.init)).pbo
          (ogl.writable_index (ogl.render_cycles cycles ogl.init)) = some frame.data ∧
      (ogl.render next next_mapped
          (ogl.render frame true (ogl.render_cycles cycles ogl.init))).drawn
        = (ogl.render_cycles cycles ogl.init).drawn
            ++ [(ogl.render_cycles cycles ogl.init).pbo
                  (ogl.render_cycles cycles ogl.init).pbo_index_, some frame.data]) := by
  have hlt : (ogl.render_cycles cycles ogl.init).pbo_index_ < 2 := by
    rw [render_cycles_pbo_index cycles ogl.init (by decide)]
    exact Nat.mod_lt _ (by decide)
  have h0 := render_buffers_of_index_lt _ hlt frame next false next_mapped
  have h1 := render_buffers_of_index_lt _ hlt frame next true next_mapped
  exact ⟨⟨h0.1, h0.2.1, by simpa using h0.2.2.1, by simpa using h0.2.2.2⟩,
    ⟨h1.1, h1.2.1, by simpa using h1.2.2.1, by simpa using h1.2.2.2⟩⟩

/-! ## Conversion context pool key -/

/-- The bitwise or of two non-negative `int`s is the one of the naturals. -/
theorem lor_natCast (a b : Nat) : Int.lor (a : Int) (b : Int) = ((a ||| b : Nat) : Int) := rfl

/-- Three disjoint bit fields or-ed together are their sum. -/
theorem or_fields_eq_add (w h f : Nat) (hh : h < 4096) (hf : f < 256) :
    (w * 1048576 ||| h * 256) ||| f = w * 1048576 + h * 256 + f := by
  have h1 : 2 ^ 8 * h + f = 2 ^ 8 * h ||| f := Nat.mul_add_lt_is_or (by omega) h
  have h2 : 2 ^ 20 * w + (2 ^ 8 * h + f) = 2 ^ 20 * w ||| (2 ^ 8 * h + f) :=
    Nat.mul_add_lt_is_or (by omega) w
  rw [Nat.or_assoc]
  have e1 : h * 256 = 2 ^ 8 * h := by omega
  have e2 : w * 1048576 = 2 ^ 20 * w := by omega
  rw [e1, e2, ← h1, ← h2]
  omega

/-- In the range where no field spills into the next one and nothing wraps,
the key is the sum of the three shifted fields. -/
theorem make_write_frame_key_in_range (w h f : Nat) (hw : w < 2048) (hh : h < 4096)
    (hf : f < 256) :
    make_write_frame_key (w : Int) (h : Int) (f : Int) = w * 1048576 + h * 256 + f := by
  unfold make_write_frame_key
  have p20 : (2 : Int) ^ 20 = 1048576 := by norm_num
  have p8 : (2 : Int) ^ 8 = 256 := by norm_num
  have e1 : to_int32 ((w : Int) * 1048576) = ((w * 1048576 : Nat) : Int) := by
    unfold to_int32
    push_cast
    omega
  have e2 : to_int32 ((h : Int) * 256) = ((h * 256 : Nat) : Int) := by
    unfold to_int32
    push_cast
    omega
  rw [p20, p8, e1, e2]
  rw [lor_natCast, lor_natCast, or_fields_eq_add w h f hh hf]
  omega

/-- C14: the pool key `width << 20 | height << 8 | pix_fmt` is injective on
`0 ≤ width < 2048`, `0 ≤ height < 4096`, `0 ≤ pix_fmt < 256`: equal keys there
force equal width, height and format. Outside that range it is not: the
distinct triples `(0, 4096, 0)` and `(1, 0, 0)` get the same key. -/
theorem make_write_frame_key_injective_in_range :
    (∀ width height pix_fmt width2 height2 pix_fmt2 : Int,
      0 ≤ width → width < 2048 → 0 ≤ height → height < 4096 → 0 ≤ pix_fmt → pix_fmt < 256 →
      0 ≤ width2 → width2 < 2048 → 0 ≤ height2 → height2 < 4096 → 0 ≤ pix_fmt2 →
      pix_fmt2 < 256 →
      make_write_frame_key width height pix_fmt = make_write_frame_key width2 height2 pix_fmt2 →
      width = width2 ∧ height = height2 ∧ pix_fmt = pix_fmt2) ∧
    (make_write_frame_key 0 4096 0 = make_write_frame_key 1 0 0 ∧
      ((0 : Int), (4096 : Int), (0 : Int)) ≠ ((1 : Int), (0 : Int), (0 : Int))) := by
  refine ⟨?_, by decide, by decide⟩
  intro w h f w2 h2 f2 hw0 hw hh0 hh hf0 hf hw20 hw2 hh20 hh2 hf20 hf2 hkey
  lift w to Nat using hw0
  lift h to Nat using hh0
  lift f to Nat using hf0
  lift w2 to Nat using hw20
  lift h2 to Nat using hh20
  lift f2 to Nat using hf20
  rw [make_write_frame_key_in_range w h f (by omega) (by omega) (by omega),
    make_write_frame_key_in_range w2 h2 f2 (by omega) (by omega) (by omega)] at hkey
  refine ⟨?_, ?_, ?_⟩ <;> omega

/-- C14 at a concrete input: 1920x1080 and 1280x720 frames of format 0 get
different keys. -/
theorem make_write_frame_key_injective_in_range_witness :
    make_write_frame_key 1920 1080 0 ≠ make_write_frame_key 1280 720 0 :=
  fun hkey => absurd
    (make_write_frame_key_injective_in_range.1 1920 1080 0 1280 720 0 (by decide) (by decide)
      (by decide) (by decide) (by decide) (by decide) (by decide) (by decide) (by decide)
      (by decide) (by decide) (by decide) hkey).1
    (by decide)

/-! ## Flash producer: stopping -/

/-- The worker's exit cleanup leaves only the end-of-stream marker buffered. -/
theorem run_exit_flushed (passes : List gpu_frame) (s : flash.implementation) :
    flash.flushed passes (flash.run_exit s) := by
  refine ⟨?_, ?_⟩
  · intro p hp
    have hp2 : p = gpu_frame_ptr.nullptr := by simpa [flash.run_exit] using hp
    exact Or.inl hp2
  · intro h
    simp [flash.run_exit] at h

/-- Stopping the executor keeps the producer flushed. -/
theorem executor_stop_flushed (passes : List gpu_frame) (s : flash.implementation)
    (h : flash.flushed passes s) : flash.flushed passes (flash.executor_stop s) := by
  unfold flash.executor_stop
  split_ifs
  · exact run_exit_flushed passes _
  · exact h

/-- The method `stop` keeps the producer flushed, and flushes a running one. -/
theorem stop_flushed (passes : List gpu_frame) (s : flash.implementation)
    (h : s.running = true ∨ flash.flushed passes s) : flash.flushed passes (flash.stop s) := by
  unfold flash.stop flash.executor_stop
  dsimp only
  cases hrun : s.running with
  | true =>
    simp only [if_true]
    exact run_exit_flushed passes _
  | false =>
    simp only [Bool.false_eq_true, if_false]
    rcases h with h | h
    · rw [hrun] at h; cases h
    · exact h

/-- The method `start` keeps the producer flushed, whether or not it raises. -/
theorem start_flushed (passes : List gpu_frame) (force created : Bool)
    (s : flash.implementation) (h : flash.flushed passes s) :
    flash.flushed passes (flash.start force created s).state := by
  have h1 : flash.flushed passes (flash.executor_stop { s with is_empty_ := true }) :=
    executor_stop_flushed passes { s with is_empty_ := true } h
  have h2 : flash.flushed passes
      { flash.executor_stop { s with is_empty_ := true } with running := true } := h1
  unfold flash.start
  split_ifs
  · exact h
  · exact h2
  · exact stop_flushed passes _ (Or.inr h2)

/-- The retry block of `param` keeps the producer flushed. -/
theorem param_invoke_flushed (passes : List gpu_frame) (CallFunction : Nat → Bool)
    (s : flash.implementation) (h : flash.flushed passes s) :
    flash.flushed passes (flash.param_invoke CallFunction s).state := by
  unfold flash.param_invoke
  dsimp only
  split_ifs
  · exact h
  · exact h

/-- The method `param` keeps the producer flushed, whether or not it raises. -/
theorem param_flushed (passes : List gpu_frame) (created : Bool) (CallFunction : Nat → Bool)
    (s : flash.implementation) (h : flash.flushed passes s) :
    flash.flushed passes (flash.param created CallFunction s).state := by
  have h1 := start_flushed passes true created s h
  unfold flash.param
  by_cases hrun : s.running = true
  · simp only [hrun, Bool.not_true, Bool.false_eq_true, if_false]
    exact param_invoke_flushed passes CallFunction s h
  · simp only [hrun, Bool.not_false, if_true]
    cases hr : (flash.start true created s).raised with
    | some e => exact h1
    | none => exact param_invoke_flushed passes CallFunction _ h1

/-- A worker render pass that hands over one of `passes` keeps the producer
flushed. -/
theorem render_flushed (passes : List gpu_frame) (capacity : Nat) (result : gpu_frame)
    (IsEmpty : Bool) (s : flash.implementation) (hres : result ∈ passes)
    (h : flash.flushed passes s) :
    flash.flushed passes (flash.render capacity result IsEmpty s) := by
  unfold flash.render
  split_ifs
  · refine ⟨?_, ?_⟩
    · intro p hp
      rcases List.mem_append.1 hp with hp | hp
      · exact h.1 p hp
      · have hp2 : p = gpu_frame_ptr.frame result := by simpa using hp
        exact Or.inr (Or.inr ⟨result, hres, hp2⟩)
    · intro hnil
      simp at hnil
  · exact h

/-- On a flushed producer `get_frame` returns the null pointer, the sentinel
or one of `passes`, and leaves the producer flushed. -/
theorem get_frame_flushed (passes : List gpu_frame) (s : flash.implementation)
    (h : flash.flushed passes s) :
    flash.from_passes passes (flash.get_frame s).1
      ∧ flash.flushed passes (flash.get_frame s).2 := by
  cases hb : s.frame_buffer_ with
  | nil =>
    cases he : s.is_empty_ with
    | true =>
      simp only [flash.get_frame, hb, he, if_true]
      exact ⟨Or.inr (Or.inl rfl), h⟩
    | false =>
      simp only [flash.get_frame, hb, he, Bool.false_eq_true, if_false]
      exact ⟨h.2 hb, h⟩
  | cons f rest =>
    have hf : flash.from_passes passes f := h.1 f (by rw [hb]; exact List.mem_cons_self _ _)
    simp only [flash.get_frame, hb]
    refine ⟨hf, ?_, fun _ => hf⟩
    intro p hp
    exact h.1 p (by rw [hb]; exact List.mem_cons_of_mem _ hp)

/-- From a flushed producer, every sequence of actions keeps it flushed and
every `get_frame` return is the null pointer, the sentinel, or a frame handed
over by a render pass of the sequence. -/
theorem run_flushed (capacity : Nat) (passes : List gpu_frame) (trace : List flash.action)
    (st : flash.implementation × List gpu_frame_ptr)
    (hpass : ∀ f ∈ flash.rendered_frames trace, f ∈ passes)
    (hst : flash.flushed passes st.1) (hret : ∀ r ∈ st.2, flash.from_passes passes r) :
    flash.flushed passes (trace.foldl (flash.step capacity) st).1
      ∧ ∀ r ∈ (trace.foldl (flash.step capacity) st).2, flash.from_passes passes r := by
  induction trace generalizing st with
  | nil => exact ⟨hst, hret⟩
  | cons a rest ih =>
    rw [List.foldl_cons]
    cases a with
    | get_frame =>
      have hg := get_frame_flushed passes st.1 hst
      refine ih _ (fun f hf => hpass f (by simpa [flash.rendered_frames] using hf)) hg.2 ?_
      intro r hr
      rcases List.mem_append.1 hr with hr | hr
      · exact hret r hr
      · have hr2 : r = (flash.get_frame st.1).1 := by simpa using hr
        rw [hr2]
        exact hg.1
    | param created CallFunction =>
      exact ih _ (fun f hf => hpass f (by simpa [flash.rendered_frames] using hf))
        (param_flushed passes created CallFunction st.1 hst) hret
    | start force created =>
      exact ih _ (fun f hf => hpass f (by simpa [flash.rendered_frames] using hf))
        (start_flushed passes force created st.1 hst) hret
    | stop =>
      exact ih _ (fun f hf => hpass f (by simpa [flash.rendered_frames] using hf))
        (stop_flushed passes st.1 (Or.inr hst)) hret
    | render result IsEmpty =>
      have hres : result ∈ passes := hpass result (by simp [flash.rendered_frames])
      exact ih _ (fun f hf => hpass f (by simp [flash.rendered_frames, hf]))
        (render_flushed passes capacity result IsEmpty st.1 hres hst) hret

/-- C12, as stated, fails: stopping a running producer with two buffered
frames leaves the is-empty flag true but the channel not empty: it holds the
end-of-stream null pointer that the worker's exit cleanup pushes after
clearing. -/
theorem stop_leaves_end_marker_buffered :
    (flash.stop ⟨[gpu_frame_ptr.frame ⟨[1]⟩, gpu_frame_ptr.frame ⟨[2]⟩],
        gpu_frame_ptr.nullptr, false, true⟩).is_empty_ = true ∧
    (flash.stop ⟨[gpu_frame_ptr.frame ⟨[1]⟩, gpu_frame_ptr.frame ⟨[2]⟩],
        gpu_frame_ptr.nullptr, false, true⟩).frame_buffer_ = [gpu_frame_ptr.nullptr] ∧
    (flash.stop ⟨[gpu_frame_ptr.frame ⟨[1]⟩, gpu_frame_ptr.frame ⟨[2]⟩],
        gpu_frame_ptr.nullptr, false, true⟩).frame_buffer_ ≠ [] := by
  decide

/-- C12, amended: for every flash producer whose worker is running, whatever
its channel holds, after `stop()` and the worker's exit cleanup the is-empty
flag is true, the executor is stopped, and the channel holds exactly one
element, the end-of-stream null pointer, and no frame; the next `get_frame`
returns that null pointer, and whatever is done afterwards, every `get_frame`
return is the null pointer, the empty sentinel, or a frame that a render pass
handed over after the stop: no frame produced before the stop is returned. -/
theorem stop_flushes_channel (capacity : Nat) (s : flash.implementation)
    (trace : List flash.action) (hrun : s.running = true) :
    (flash.stop s).is_empty_ = true ∧
    (flash.stop s).running = false ∧
    (flash.stop s).frame_buffer_ = [gpu_frame_ptr.nullptr] ∧
    (flash.get_frame (flash.stop s)).1 = gpu_frame_ptr.nullptr ∧
    (∀ r ∈ (flash.run_from capacity (flash.stop s) trace).2,
      r = gpu_frame_ptr.nullptr ∨ r = gpu_frame_ptr.null
        ∨ ∃ f ∈ flash.rendered_frames trace, r = gpu_frame_ptr.frame f) := by
  have hstop : flash.stop s
      = { s with is_empty_ := true, running := false,
                 frame_buffer_ := [gpu_frame_ptr.nullptr] } := by
    simp [flash.stop, flash.executor_stop, flash.run_exit, hrun]
  refine ⟨by rw [hstop], by rw [hstop], by rw [hstop], by rw [hstop]; rfl, ?_⟩
  have hfl : flash.flushed (flash.rendered_frames trace) (flash.stop s) :=
    stop_flushed _ s (Or.inl hrun)
  exact (run_flushed capacity (flash.rendered_frames trace) trace (flash.stop s, [])
    (fun f hf => hf) hfl (fun r hr => absurd hr (List.not_mem_nil r))).2

/-- C12, amended, at a concrete input: a running producer with two buffered
frames is stopped; the channel then holds only the null pointer, and
`get_frame`, `get_frame`, an accepted `param` and a third `get_frame` return
the null pointer, the sentinel and the null pointer. -/
theorem stop_flushes_channel_witness :
    (flash.stop ⟨[gpu_frame_ptr.frame ⟨[1]⟩, gpu_frame_ptr.frame ⟨[2]⟩],
        gpu_frame_ptr.frame ⟨[0]⟩, false, true⟩).frame_buffer_ = [gpu_frame_ptr.nullptr] ∧
    (flash.run_from 2
        (flash.stop ⟨[gpu_frame_ptr.frame ⟨[1]⟩, gpu_frame_ptr.frame ⟨[2]⟩],
          gpu_frame_ptr.frame ⟨[0]⟩, false, true⟩)
        [flash.action.get_frame, flash.action.get_frame,
         flash.action.param true (fun _ => true), flash.action.get_frame]).2
      = [gpu_frame_ptr.nullptr, gpu_frame_ptr.null, gpu_frame_ptr.nullptr] := by
  have hacc : flash.param_loop (fun _ => true) 0 = (1, false) :=
    param_loop_accept (fun _ => true) 0 rfl
  refine ⟨(stop_flushes_channel 2
      ⟨[gpu_frame_ptr.frame ⟨[1]⟩, gpu_frame_ptr.frame ⟨[2]⟩], gpu_frame_ptr.frame ⟨[0]⟩,
        false, true⟩ [] rfl).2.2.1, ?_⟩
  simp [flash.run_from, flash.step, flash.stop, flash.start, flash.executor_stop,
    flash.run_exit, flash.param, flash.param_invoke, hacc, flash.get_frame]

/-! ## Flash producer: bitmap reuse -/

/-- The report of a `render_frame` call appended to a sequence is the last
report. -/
theorem last_report_append_render (events : List flash.render_event) (r : Bool)
    (picture : List byte) :
    flash.last_report (events ++ [flash.render_event.render_frame r picture]) = some r := by
  induction events with
  | nil => rfl
  | cons e rest ih =>
    cases e with
    | render_frame r2 p2 => simp only [List.cons_append, flash.last_report, List.append_eq, ih]
    | reset => simp only [List.cons_append, flash.last_report, List.append_eq, ih]

/-- A reset appended to a sequence does not change the last report. -/
theorem last_report_append_reset (events : List flash.render_event) :
    flash.last_report (events ++ [flash.render_event.reset]) = flash.last_report events := by
  induction events with
  | nil => rfl
  | cons e rest ih =>
    cases e with
    | render_frame r2 p2 => simp only [List.cons_append, flash.last_report, List.append_eq, ih]
    | reset => simp only [List.cons_append, flash.last_report, List.append_eq, ih]

/-- The drawing branch does not touch the counter. -/
theorem render_frame_draw_invalid_count (picture : List byte) (s : flash.render_state) :
    (flash.render_frame_draw picture s).invalid_count_ = s.invalid_count_ := by
  unfold flash.render_frame_draw
  cases s.bitmap_pool_ <;> rfl

/-- The drawing branch always leaves a current bitmap holding the picture. -/
theorem render_frame_draw_current (picture : List byte) (s : flash.render_state) :
    ∃ b, (flash.render_frame_draw picture s).current_frame_ = some b ∧ b.data = picture := by
  unfold flash.render_frame_draw
  cases s.bitmap_pool_ <;> exact ⟨_, rfl, rfl⟩

/-- One `render_frame` call either reuses the current bitmap, which it does
exactly when there is one, the container reports no invalid rectangle and the
counter was already at least 1, or goes through the drawing branch. -/
theorem render_frame_skip_or_draw (InvalidRectangle : Bool) (picture : List byte)
    (s : flash.render_state) (h0 : 0 ≤ s.invalid_count_) :
    ((s.current_frame_ ≠ none ∧ InvalidRectangle = false ∧ 1 ≤ s.invalid_count_) ∧
      (flash.render_frame InvalidRectangle picture s).2 = { s with invalid_count_ := 2 } ∧
      ∃ c, s.current_frame_ = some c
        ∧ (flash.render_frame InvalidRectangle picture s).1 = ⟨c.data⟩) ∨
    (¬ (s.current_frame_ ≠ none ∧ InvalidRectangle = false ∧ 1 ≤ s.invalid_count_) ∧
      (flash.render_frame InvalidRectangle picture s).2
        = flash.render_frame_draw picture
            { s with invalid_count_ :=
                if !InvalidRectangle then min 2 (s.invalid_count_ + 1) else 0 } ∧
      (flash.render_frame InvalidRectangle picture s).1 = ⟨picture⟩) := by
  obtain ⟨b, hb, hdata⟩ := render_frame_draw_current picture
    { s with invalid_count_ := if !InvalidRectangle then min 2 (s.invalid_count_ + 1) else 0 }
  by_cases hskip : s.current_frame_ ≠ none ∧ InvalidRectangle = false ∧ 1 ≤ s.invalid_count_
  · left
    obtain ⟨hcur, hrep, hcount⟩ := hskip
    obtain ⟨c, hc⟩ := Option.ne_none_iff_exists'.1 hcur
    have hmin : min 2 (s.invalid_count_ + 1) = 2 := by omega
    refine ⟨⟨hcur, hrep, hcount⟩, ?_, c, hc, ?_⟩ <;>
      simp [flash.render_frame, hrep, hc, hmin]
  · right
    have hcond : s.current_frame_ = none
        ∨ (if !InvalidRectangle then min 2 (s.invalid_count_ + 1) else 0) < 2 := by
      by_cases hcur : s.current_frame_ = none
      · exact Or.inl hcur
      · right
        cases InvalidRectangle with
        | true => simp
        | false =>
          have hlt : ¬ 1 ≤ s.invalid_count_ := fun h => hskip ⟨hcur, rfl, h⟩
          simp only [Bool.not_false, if_true]
          omega
    refine ⟨hskip, ?_, ?_⟩
    · simp only [flash.render_frame, hcond, if_true, hb]
    · simp only [flash.render_frame, hcond, if_true, hb, hdata]

/-- A `render_frame` call appended to a sequence of events. -/
theorem render_trace_append_render (events : List flash.render_event) (r : Bool)
    (picture : List byte) :
    flash.render_trace (events ++ [flash.render_event.render_frame r picture])
      = (flash.render_frame r picture (flash.render_trace events)).2 := by
  unfold flash.render_trace
  rw [List.foldl_append]
  rfl

/-- After every sequence of events from the constructor, `invalid_count_` is
0, 1 or 2, and it is at least 1 exactly when the most recent `render_frame`
call saw no invalid rectangle. -/
theorem render_trace_invalid_count (events : List flash.render_event) :
    0 ≤ (flash.render_trace events).invalid_count_ ∧
    (flash.render_trace events).invalid_count_ ≤ 2 ∧
    (1 ≤ (flash.render_trace events).invalid_count_
      ↔ flash.last_report events = some false) := by
  induction events using List.reverseRecOn with
  | nil =>
    refine ⟨by decide, by decide, ?_⟩
    constructor
    · intro h; exact absurd h (by decide)
    · intro h; cases h
  | append_singleton tr e ih =>
    obtain ⟨h0, h2, hrep⟩ := ih
    cases e with
    | render_frame r picture =>
      rw [render_trace_append_render, last_report_append_render]
      rcases render_frame_skip_or_draw r picture (flash.render_trace tr) h0 with
        ⟨⟨_, hr, _⟩, hst, _⟩ | ⟨_, hst, _⟩
      · rw [hst, hr]
        show (0 : Int) ≤ 2 ∧ (2 : Int) ≤ 2 ∧ ((1 : Int) ≤ 2 ↔ some false = some false)
        exact ⟨by decide, by decide, fun _ => rfl, fun _ => by decide⟩
      · rw [hst, render_frame_draw_invalid_count]
        cases r with
        | true =>
          show (0 : Int) ≤ 0 ∧ (0 : Int) ≤ 2 ∧ ((1 : Int) ≤ 0 ↔ some true = some false)
          refine ⟨le_refl _, by decide, ?_⟩
          constructor
          · intro h; exact absurd h (by decide)
          · intro h; cases h
        | false =>
          show 0 ≤ min 2 ((flash.render_trace tr).invalid_count_ + 1)
            ∧ min 2 ((flash.render_trace tr).invalid_count_ + 1) ≤ 2
            ∧ (1 ≤ min 2 ((flash.render_trace tr).invalid_count_ + 1)
                ↔ some false = some false)
          exact ⟨by omega, by omega, fun _ => rfl, fun _ => by omega⟩
    | reset =>
      have hst : flash.render_trace (tr ++ [flash.render_event.reset])
          = flash.reset_current (flash.render_trace tr) := by
        unfold flash.render_trace
        rw [List.foldl_append]
        rfl
      rw [hst, last_report_append_reset]
      exact ⟨h0, h2, hrep⟩

/-- One more entry makes a different list. -/
theorem append_singleton_ne_self (l : List Nat) (x : Nat) : l ++ [x] ≠ l := by
  intro h
  have hlen := congrArg List.length h
  simp at hlen

/-- C13: over every sequence of `render_frame` calls (and resets of the
current bitmap by restarts) from the constructor's `invalid_count_ = 0`, the
counter is 0, 1 or 2 before and after every call; a call makes no `DrawControl`
call, keeping the current bitmap, the pool and the allocations as they are and
filling the returned frame from the previously rendered bitmap, if and only if
there is a current bitmap and the container reported no invalid rectangle both
on this call and on the call before it; in every other case it makes exactly
one `DrawControl` call, into the bitmap at the head of the pool or, when the
pool is empty, into a newly allocated one, and fills the returned frame from
that bitmap. -/
theorem render_frame_reuse_policy (events : List flash.render_event)
    (InvalidRectangle : Bool) (picture : List byte) :
    ((flash.render_trace events).invalid_count_ = 0
      ∨ (flash.render_trace events).invalid_count_ = 1
      ∨ (flash.render_trace events).invalid_count_ = 2) ∧
    ((flash.render_frame InvalidRectangle picture (flash.render_trace events)).2.invalid_count_ = 0
      ∨ (flash.render_frame InvalidRectangle picture
          (flash.render_trace events)).2.invalid_count_ = 1
      ∨ (flash.render_frame InvalidRectangle picture
          (flash.render_trace events)).2.invalid_count_ = 2) ∧
    ((flash.render_frame InvalidRectangle picture (flash.render_trace events)).2.draws
        = (flash.render_trace events).draws
      ↔ ((flash.render_trace events).current_frame_ ≠ none ∧ InvalidRectangle = false
          ∧ flash.last_report events = some false)) ∧
    ((flash.render_frame InvalidRectangle picture (flash.render_trace events)).2.draws
        = (flash.render_trace events).draws →
      (flash.render_frame InvalidRectangle picture (flash.render_trace events)).2.current_frame_
          = (flash.render_trace events).current_frame_ ∧
      (flash.render_frame InvalidRectangle picture (flash.render_trace events)).2.bitmap_pool_
          = (flash.render_trace events).bitmap_pool_ ∧
      (flash.render_frame InvalidRectangle picture (flash.render_trace events)).2.allocated
          = (flash.render_trace events).allocated ∧
      ∃ c, (flash.render_trace events).current_frame_ = some c ∧
        (flash.render_frame InvalidRectangle picture (flash.render_trace events)).1
          = ⟨c.data⟩) ∧
    ((flash.render_frame InvalidRectangle picture (flash.render_trace events)).2.draws
        ≠ (flash.render_trace events).draws →
      (flash.render_frame InvalidRectangle picture (flash.render_trace events)).1 = ⟨picture⟩ ∧
      ((∃ b rest, (flash.render_trace events).bitmap_pool_ = b :: rest ∧
          (flash.render_frame InvalidRectangle picture (flash.render_trace events)).2.draws
            = (flash.render_trace events).draws ++ [b.id] ∧
          (flash.render_frame InvalidRectangle picture
              (flash.render_trace events)).2.current_frame_
            = some { b with data := picture } ∧
          (flash.render_frame InvalidRectangle picture (flash.render_trace events)).2.allocated
            = (flash.render_trace events).allocated) ∨
        ((flash.render_trace events).bitmap_pool_ = [] ∧
          (flash.render_frame InvalidRectangle picture (flash.render_trace events)).2.draws
            = (flash.render_trace events).draws ++ [(flash.render_trace events).allocated] ∧
          (flash.render_frame InvalidRectangle picture
              (flash.render_trace events)).2.current_frame_
            = some ⟨(flash.render_trace events).allocated, picture⟩ ∧
          (flash.render_frame InvalidRectangle picture (flash.render_trace events)).2.allocated
            = (flash.render_trace events).allocated + 1))) := by
  obtain ⟨h0, h2, hrep⟩ := render_trace_invalid_count events
  have hafter := render_trace_invalid_count
    (events ++ [flash.render_event.render_frame InvalidRectangle picture])
  rw [render_trace_append_render] at hafter
  generalize flash.render_trace events = s at *
  have hdraw : ∀ t : flash.render_state,
      ((∃ b rest, t.bitmap_pool_ = b :: rest ∧
          (flash.render_frame_draw picture t).draws = t.draws ++ [b.id] ∧
          (flash.render_frame_draw picture t).current_frame_ = some { b with data := picture } ∧
          (flash.render_frame_draw picture t).allocated = t.allocated) ∨
        (t.bitmap_pool_ = [] ∧
          (flash.render_frame_draw picture t).draws = t.draws ++ [t.allocated] ∧
          (flash.render_frame_draw picture t).current_frame_ = some ⟨t.allocated, picture⟩ ∧
          (flash.render_frame_draw picture t).allocated = t.allocated + 1)) := by
    intro t
    unfold flash.render_frame_draw
    cases hp : t.bitmap_pool_ with
    | nil => exact Or.inr ⟨rfl, rfl, rfl, rfl⟩
    | cons b rest => exact Or.inl ⟨b, rest, rfl, rfl, rfl, rfl⟩
  have hne : ∀ t : flash.render_state, (flash.render_frame_draw picture t).draws ≠ t.draws := by
    intro t
    rcases hdraw t with ⟨b, rest, _, hd, _, _⟩ | ⟨_, hd, _, _⟩ <;> rw [hd] <;>
      exact append_singleton_ne_self _ _
  refine ⟨by omega, by omega, ?_, ?_, ?_⟩
  all_goals
    rcases render_frame_skip_or_draw InvalidRectangle picture s h0 with
      ⟨⟨hcur, hr, hcount⟩, hst, c, hc, hfr⟩ | ⟨hno, hst, hfr⟩
  · rw [hst]
    exact ⟨fun _ => ⟨hcur, hr, hrep.1 hcount⟩, fun _ => rfl⟩
  · rw [hst]
    constructor
    · intro h
      exact absurd h (hne _)
    · rintro ⟨hcur, hr, hlast⟩
      exact absurd ⟨hcur, hr, hrep.2 hlast⟩ hno
  · intro _
    rw [hst, hfr]
    exact ⟨rfl, rfl, rfl, c, hc, rfl⟩
  · intro h
    rw [hst] at h
    exact absurd h (hne _)
  · intro h
    rw [hst] at h
    exact absurd rfl h
  · intro _
    rw [hst, hfr]
    exact ⟨rfl, hdraw
      { s with invalid_count_ :=
          if !InvalidRectangle then min 2 (s.invalid_count_ + 1) else 0 }⟩

/-- C13 at a concrete input: after a call that saw an invalid rectangle and
two that saw none, the third call reused the bitmap of the second, and a
fourth call without an invalid rectangle draws nothing either. -/
theorem render_frame_reuse_policy_witness :
    (flash.render_trace
      [flash.render_event.render_frame true [1], flash.render_event.render_frame false [2],
       flash.render_event.render_frame false [3]]).draws = [0, 1] ∧
    (flash.render_frame false [4]
      (flash.render_trace
        [flash.render_event.render_frame true [1], flash.render_event.render_frame false [2],
         flash.render_event.render_frame false [3]])).2.draws
      = (flash.render_trace
        [flash.render_event.render_frame true [1], flash.render_event.render_frame false [2],
         flash.render_event.render_frame false [3]]).draws :=
  ⟨by decide,
   (render_frame_reuse_policy
      [flash.render_event.render_frame true [1], flash.render_event.render_frame false [2],
       flash.render_event.render_frame false [3]] false [4]).2.2.1.2
     ⟨by decide, rfl, by decide⟩⟩

end caspar
